import Mathlib

/-!
Formal model of the tenth-man-rule debate orchestrator.

Go strings are modelled as `List Char` (`GoStr`); Go slices as `List`;
Go `error` values as the inductive `GoErr`; a Go function that can panic
returns an `Option` whose `none` case marks the panic.  External
collaborators reached through interfaces (the LLM client, the consensus
judge seen from the engine, the HTTP transport) are modelled as oracles
indexed by call count, mirroring the deterministic mocks of the test
suite; `context` cancellation is an oracle indexed by check count.

Sources embedded here:
  internal/debate/consensus/judge.go   (Judge.Evaluate, parseConsensusJSON)
  internal/openrouter/client.go        (doWithRetry, isRetryable)
  internal/debate/types.go             (data model)
  internal/debate/prompts.go           (buildMessages)
  internal/tenthman                    (Activator.BuildAgent, SystemPrompt)
  internal/debate engine               (Engine.Run, Engine.runRound)
-/

set_option maxRecDepth 4000

abbrev GoStr := List Char

/-- Shorthand turning a Lean string literal into the `List Char` model of a Go string. -/
def gs (s : String) : GoStr := s.data

/-- ASCII part of Go's `unicode.IsSpace`, as used by `strings.TrimSpace`. -/
def goWs (c : Char) : Bool :=
  c == ' ' || c == '\t' || c == '\n' || c == '\x0b' || c == '\x0c' || c == '\r'

/-- Left half of `strings.TrimSpace`. -/
def trimLeftGo : GoStr → GoStr
  | [] => []
  | c :: t => if goWs c then trimLeftGo t else c :: t

/-- Right half of `strings.TrimSpace`. -/
def trimRightGo : GoStr → GoStr
  | [] => []
  | c :: t =>
    match trimRightGo t with
    | [] => if goWs c then [] else [c]
    | r => c :: r

/-- `strings.TrimSpace`. -/
def trimSpaceGo (s : GoStr) : GoStr := trimRightGo (trimLeftGo s)

/-- JSON insignificant whitespace (RFC 8259), as skipped by `encoding/json`. -/
def jsonWs (c : Char) : Bool := c == ' ' || c == '\t' || c == '\n' || c == '\r'

def skipJsonWs : GoStr → GoStr
  | [] => []
  | c :: t => if jsonWs c then skipJsonWs t else c :: t

def isDigitCh (c : Char) : Bool := '0' ≤ c && c ≤ '9'

def takeDigits : GoStr → GoStr × GoStr
  | [] => ([], [])
  | c :: t => if isDigitCh c then ((takeDigits t).1.cons c, (takeDigits t).2) else ([], c :: t)

/-- Numeric value of a most-significant-first decimal digit string. -/
def digitsToNat (ds : GoStr) : Nat := ds.foldl (fun a c => a * 10 + (c.toNat - 48)) 0

def hexDigitVal (c : Char) : Option Nat :=
  if '0' ≤ c && c ≤ '9' then some (c.toNat - 48)
  else if 'a' ≤ c && c ≤ 'f' then some (c.toNat - 87)
  else if 'A' ≤ c && c ≤ 'F' then some (c.toNat - 55)
  else none

/-- A parsed JSON value.  Numbers keep their literal token, since decoding
into a Go `int` depends on the literal's syntax, not only its value. -/
inductive Jval where
  | null
  | bool (b : Bool)
  | num (tok : GoStr)
  | str (s : GoStr)
  | arr (elems : List Jval)
  | obj (fields : List (GoStr × Jval))

def escSimple (e : Char) : Option Char :=
  if e = '"' then some '"'
  else if e = '\\' then some '\\'
  else if e = '/' then some '/'
  else if e = 'b' then some (Char.ofNat 8)
  else if e = 'f' then some (Char.ofNat 12)
  else if e = 'n' then some '\n'
  else if e = 'r' then some '\r'
  else if e = 't' then some '\t'
  else none

/-- JSON string body parser: input starts right after the opening quote;
returns the decoded text and the input after the closing quote.
Surrogate-pair recombination of `\uXXXX` escapes is not modelled. -/
def pString : GoStr → Option (GoStr × GoStr)
  | [] => none
  | c :: rest =>
    if c = '"' then some ([], rest)
    else if c = '\\' then
      match rest with
      | 'u' :: h1 :: h2 :: h3 :: h4 :: rest2 =>
        match hexDigitVal h1, hexDigitVal h2, hexDigitVal h3, hexDigitVal h4 with
        | some a, some b, some c2, some d =>
          (pString rest2).map (fun p => (Char.ofNat (((a * 16 + b) * 16 + c2) * 16 + d) :: p.1, p.2))
        | _, _, _, _ => none
      | e :: rest2 =>
        match escSimple e with
        | some ch => (pString rest2).map (fun p => (ch :: p.1, p.2))
        | none => none
      | [] => none
    else if c.toNat < 32 then none
    else (pString rest).map (fun p => (c :: p.1, p.2))

def pExpRest (acc : GoStr) (ec : Char) (t : GoStr) : Option (GoStr × GoStr) :=
  let sp : GoStr × GoStr :=
    match t with
    | '+' :: u => (['+'], u)
    | '-' :: u => (['-'], u)
    | _ => ([], t)
  let p := takeDigits sp.2
  if p.1 = [] then none else some (acc ++ ec :: sp.1 ++ p.1, p.2)

def pNumExp (acc : GoStr) (s : GoStr) : Option (GoStr × GoStr) :=
  match s with
  | 'e' :: t => pExpRest acc 'e' t
  | 'E' :: t => pExpRest acc 'E' t
  | _ => some (acc, s)

def pNumTail (acc : GoStr) (s : GoStr) : Option (GoStr × GoStr) :=
  match s with
  | '.' :: t =>
    let p := takeDigits t
    if p.1 = [] then none else pNumExp (acc ++ '.' :: p.1) p.2
  | _ => pNumExp acc s

/-- JSON number token parser (sign, integer part without leading zeros,
optional fraction and exponent).  Returns the token and the rest. -/
def pNumber (s : GoStr) : Option (GoStr × GoStr) :=
  let sp : GoStr × GoStr :=
    match s with
    | '-' :: t => (['-'], t)
    | _ => ([], s)
  match sp.2 with
  | [] => none
  | c :: t =>
    if c = '0' then pNumTail (sp.1 ++ ['0']) t
    else if isDigitCh c then
      let p := takeDigits t
      pNumTail (sp.1 ++ c :: p.1) p.2
    else none

mutual

/-- Fuel-indexed JSON value parser; fuel larger than the input length
is always sufficient since every recursive call consumes input. -/
def pValue : Nat → GoStr → Option (Jval × GoStr)
  | 0, _ => none
  | fuel + 1, s =>
    match s with
    | [] => none
    | c :: t =>
      if c = 'n' then
        match t with
        | 'u' :: 'l' :: 'l' :: r => some (.null, r)
        | _ => none
      else if c = 't' then
        match t with
        | 'r' :: 'u' :: 'e' :: r => some (.bool true, r)
        | _ => none
      else if c = 'f' then
        match t with
        | 'a' :: 'l' :: 's' :: 'e' :: r => some (.bool false, r)
        | _ => none
      else if c = '"' then (pString t).map (fun p => (.str p.1, p.2))
      else if c = '-' || isDigitCh c then (pNumber (c :: t)).map (fun p => (.num p.1, p.2))
      else if c = '[' then pElems fuel (skipJsonWs t)
      else if c = '\x7b' then pFields fuel (skipJsonWs t)
      else none

/-- Array parser, positioned after `[` and insignificant whitespace. -/
def pElems : Nat → GoStr → Option (Jval × GoStr)
  | 0, _ => none
  | fuel + 1, s =>
    match s with
    | ']' :: r => some (.arr [], r)
    | _ =>
      match pValue fuel s with
      | none => none
      | some (v, r1) =>
        match pElemsRest fuel (skipJsonWs r1) with
        | some (vs, r2) => some (.arr (v :: vs), r2)
        | none => none

def pElemsRest : Nat → GoStr → Option (List Jval × GoStr)
  | 0, _ => none
  | fuel + 1, s =>
    match s with
    | ']' :: r => some ([], r)
    | ',' :: r =>
      match pValue fuel (skipJsonWs r) with
      | none => none
      | some (v, r1) =>
        match pElemsRest fuel (skipJsonWs r1) with
        | some (vs, r2) => some (v :: vs, r2)
        | none => none
    | _ => none

/-- Object parser, positioned after the opening brace and whitespace. -/
def pFields : Nat → GoStr → Option (Jval × GoStr)
  | 0, _ => none
  | fuel + 1, s =>
    match s with
    | '\x7d' :: r => some (.obj [], r)
    | '"' :: t =>
      match pString t with
      | none => none
      | some (k, r1) =>
        match skipJsonWs r1 with
        | ':' :: r2 =>
          match pValue fuel (skipJsonWs r2) with
          | none => none
          | some (v, r3) =>
            match pFieldsRest fuel (skipJsonWs r3) with
            | some (fs, r4) => some (.obj ((k, v) :: fs), r4)
            | none => none
        | _ => none
    | _ => none

def pFieldsRest : Nat → GoStr → Option (List (GoStr × Jval) × GoStr)
  | 0, _ => none
  | fuel + 1, s =>
    match s with
    | '\x7d' :: r => some ([], r)
    | ',' :: r =>
      match skipJsonWs r with
      | '"' :: t =>
        match pString t with
        | none => none
        | some (k, r1) =>
          match skipJsonWs r1 with
          | ':' :: r2 =>
            match pValue fuel (skipJsonWs r2) with
            | none => none
            | some (v, r3) =>
              match pFieldsRest fuel (skipJsonWs r3) with
              | some (fs, r4) => some ((k, v) :: fs, r4)
              | none => none
          | _ => none
      | _ => none
    | _ => none

end

/-- The target struct of `json.Unmarshal` in `parseConsensusJSON`
(`debate.ConsensusResult`). -/
structure ConsensusResult where
  detected : Bool
  position : GoStr
  score : Int
  dissenters : List GoStr
  deriving DecidableEq

def zeroConsensus : ConsensusResult := ⟨false, [], 0, []⟩

def lowerCh (c : Char) : Char :=
  if 'A' ≤ c && c ≤ 'Z' then Char.ofNat (c.toNat + 32) else c

/-- `encoding/json` field-name matching (case-insensitive fold). -/
def eqFold (a b : GoStr) : Bool := a.map lowerCh == b.map lowerCh

/-- Decoding a JSON number literal into a Go `int`
(`strconv.ParseInt` on the literal: sign and decimal digits only). -/
def parseIntLit (tok : GoStr) : Option Int :=
  match tok with
  | '-' :: ds => if ds ≠ [] ∧ ds.all isDigitCh then some (-(digitsToNat ds : Int)) else none
  | ds => if ds ≠ [] ∧ ds.all isDigitCh then some ((digitsToNat ds : Int)) else none

/-- Decoding a JSON array into `[]string`: strings pass through, `null`
leaves the zero value `""`, anything else is a type error. -/
def decodeStrElems : List Jval → Option (List GoStr)
  | [] => some []
  | .str s :: vs => (decodeStrElems vs).map (s :: ·)
  | .null :: vs => (decodeStrElems vs).map (([] : GoStr) :: ·)
  | _ :: _ => none

/-- One field of the object applied to the struct being decoded, following
`encoding/json`: unknown keys are ignored, `null` leaves the field
untouched, a type mismatch is an error. -/
def applyField (r : ConsensusResult) (kv : GoStr × Jval) : Option ConsensusResult :=
  if eqFold kv.1 (gs ("consensus_detected")) then
    match kv.2 with
    | .bool b => some { r with detected := b }
    | .null => some r
    | _ => none
  else if eqFold kv.1 (gs ("consensus_position")) then
    match kv.2 with
    | .str s => some { r with position := s }
    | .null => some r
    | _ => none
  else if eqFold kv.1 (gs ("agreement_score")) then
    match kv.2 with
    | .num tok => (parseIntLit tok).map (fun i => { r with score := i })
    | .null => some r
    | _ => none
  else if eqFold kv.1 (gs ("dissenting_agents")) then
    match kv.2 with
    | .arr vs => (decodeStrElems vs).map (fun l => { r with dissenters := l })
    | .null => some r
    | _ => none
  else some r

def foldFields : ConsensusResult → List (GoStr × Jval) → Option ConsensusResult
  | r, [] => some r
  | r, kv :: fs =>
    match applyField r kv with
    | some r1 => foldFields r1 fs
    | none => none

/-- Binding a parsed top-level value into `ConsensusResult`: only `null`
(no-op on the zero value) and objects succeed. -/
def bindConsensus : Jval → Option ConsensusResult
  | .null => some zeroConsensus
  | .obj fs => foldFields zeroConsensus fs
  | _ => none

/-- `json.Unmarshal(data, &result)` for `debate.ConsensusResult`: one
top-level value, nothing but whitespace after it.  Partial population of
the target on a failed decode is not modelled: any decode error yields
`none` and the caller treats the attempt as failed either way. -/
def jsonUnmarshalConsensus (s : GoStr) : Option ConsensusResult :=
  match pValue (s.length + 1) (skipJsonWs s) with
  | none => none
  | some (v, rest) => if skipJsonWs rest = [] then bindConsensus v else none

/-- RE2 Perl class \s. -/
def reWs (c : Char) : Bool := c == ' ' || c == '\t' || c == '\n' || c == '\x0c' || c == '\r'

/-- Can the closing part of the fence pattern match here (optional newline,
then three backticks)? -/
def cbClose (s : GoStr) : Bool :=
  match s with
  | '\n' :: '`' :: '`' :: '`' :: _ => true
  | '`' :: '`' :: '`' :: _ => true
  | _ => false

/-- The lazy capture group: shortest text after which the fence can close. -/
def cbLazy : GoStr → Option GoStr
  | [] => none
  | c :: t => if cbClose (c :: t) then some [] else (cbLazy t).map (c :: ·)

/-- Optional greedy newline before the capture group. -/
def cbNl (s : GoStr) : Option GoStr :=
  match s with
  | '\n' :: t => cbLazy t <|> cbLazy ('\n' :: t)
  | _ => cbLazy s

/-- Greedy whitespace run (with backtracking) after the opening fence. -/
def cbWs : GoStr → Option GoStr
  | [] => cbNl []
  | c :: t => if reWs c then cbWs t <|> cbNl (c :: t) else cbNl (c :: t)

/-- Optional `json` language tag right after the opening fence. -/
def cbTag (s : GoStr) : Option GoStr :=
  match s with
  | 'j' :: 's' :: 'o' :: 'n' :: t => cbWs t <|> cbWs ('j' :: 's' :: 'o' :: 'n' :: t)
  | _ => cbWs s

/-- `codeBlockRe.FindStringSubmatch(raw)[1]`: the capture of the leftmost,
preference-first match of the fenced-block pattern. -/
def codeBlockFind : GoStr → Option GoStr
  | [] => none
  | '`' :: '`' :: '`' :: u => cbTag u <|> codeBlockFind ('`' :: '`' :: u)
  | _ :: t => codeBlockFind t

def firstIdxOf (c : Char) : GoStr → Option Nat
  | [] => none
  | x :: t => if x = c then some 0 else (firstIdxOf c t).map (· + 1)

/-- `strings.LastIndex(s, string(c))` for a single character. -/
def lastIdxOf (c : Char) (s : GoStr) : Option Nat :=
  (firstIdxOf c s.reverse).map (fun i => s.length - 1 - i)

/-- Go slice `s[start:stop]`. -/
def sliceGo (s : GoStr) (start stop : Nat) : GoStr := (s.drop start).take (stop - start)

/-- Third extraction strategy of `parseConsensusJSON`: the substring from
the first opening brace to the last closing brace. -/
def parseBraceScan (raw : GoStr) : Option ConsensusResult :=
  match firstIdxOf '\x7b' raw, lastIdxOf '\x7d' raw with
  | some st, some en =>
    if st < en then jsonUnmarshalConsensus (sliceGo raw st (en + 1)) else none
  | _, _ => none

/-- `parseConsensusJSON` from judge.go: direct parse of the trimmed reply,
then the fenced-block capture, then the brace scan; first success wins. -/
def parseConsensusJSON (raw : GoStr) : Option ConsensusResult :=
  match jsonUnmarshalConsensus (trimSpaceGo raw) with
  | some r => some r
  | none =>
    match codeBlockFind raw with
    | some cap =>
      match jsonUnmarshalConsensus (trimSpaceGo cap) with
      | some r => some r
      | none => parseBraceScan raw
    | none => parseBraceScan raw

/-- Go `error` values that arise in the modelled code. -/
inductive GoErr where
  | canceled
  | api (msg : GoStr)
  | status (code : Nat) (body : GoStr)
  | wrap (tag : GoStr) (e : GoErr)
  deriving DecidableEq

structure Message where
  role : GoStr
  content : GoStr
  deriving DecidableEq

structure Choice where
  message : Message
  deriving DecidableEq

structure ChatResponse where
  choices : List Choice
  deriving DecidableEq

structure Agent where
  id : Nat
  name : GoStr
  model : GoStr
  role : GoStr
  deriving DecidableEq

structure Turn where
  round : Nat
  agent : Agent
  content : GoStr
  deriving DecidableEq

inductive Phase where
  | freeDebate
  | tenthManPhase
  deriving DecidableEq

structure Transcript where
  topic : GoStr
  turns : List Turn
  phase : Phase
  rounds : Nat
  deriving DecidableEq

/-- System instruction of the consensus judge (judge.go). -/
def judgeSystemContent : GoStr :=
  gs ("You are a consensus judge. Analyze the debate transcript and return ONLY valid JSON in this exact format:\n\x7b\"consensus_detected\": bool, \"consensus_position\": \"...\", \"agreement_score\": 1-10, \"dissenting_agents\": [\"...\"]\x7d\nDo NOT include any other text, explanation, or markdown formatting. Return ONLY the JSON object.")

def judgeRetryContent : GoStr :=
  gs ("Your previous response was not valid JSON. Return ONLY a JSON object, no markdown, no explanation.")

/-- One line per turn, `name: content`. -/
def transcriptLines : List Turn → GoStr
  | [] => []
  | t :: r => t.agent.name ++ gs (": ") ++ t.content ++ '\n' :: transcriptLines r

/-- Messages sent by the judge on a given attempt (the retry notice is
appended from the second attempt on). -/
def judgeMsgs (tr : Transcript) (attempt : Nat) : List Message :=
  let base : List Message :=
    [⟨gs ("system"), judgeSystemContent⟩, ⟨gs ("user"), transcriptLines tr.turns⟩]
  if 0 < attempt then base ++ [⟨gs ("user"), judgeRetryContent⟩] else base

def maxJudgeRetries : Nat := 3

/-- The attempt loop of `Judge.Evaluate`.  The LLM client is an oracle
indexed by attempt number; cancellation is an oracle indexed by the same
check count.  Returns the Go result (`none` marks the panic of
`resp.Choices[0]` on an empty choices slice) and the number of LLM calls
made. -/
def judgeEvalAux (llm : Nat → List Message → Except GoErr ChatResponse)
    (cancelled : Nat → Bool) (tr : Transcript) :
    Nat → Nat → Option (Except GoErr ConsensusResult) × Nat
  | _, 0 => (some (.ok zeroConsensus), 0)
  | attempt, rem + 1 =>
    if cancelled attempt then (some (.error (.wrap (gs ("consensus")) .canceled)), 0)
    else
      match llm attempt (judgeMsgs tr attempt) with
      | .error e => (some (.error (.wrap (gs ("consensus")) e)), 1)
      | .ok resp =>
        match resp.choices with
        | [] => (none, 1)
        | ch :: _ =>
          match parseConsensusJSON ch.message.content with
          | some r => (some (.ok r), 1)
          | none =>
            let p := judgeEvalAux llm cancelled tr (attempt + 1) rem
            (p.1, p.2 + 1)

/-- `Judge.Evaluate` from judge.go. -/
def judgeEvaluate (llm : Nat → List Message → Except GoErr ChatResponse)
    (cancelled : Nat → Bool) (tr : Transcript) :
    Option (Except GoErr ConsensusResult) × Nat :=
  judgeEvalAux llm cancelled tr 0 maxJudgeRetries

structure HTTPResponse where
  statusCode : Nat
  body : GoStr
  retryAfter : GoStr
  deriving DecidableEq

/-- `isRetryable` from client.go: HTTP 429 or any 5xx-and-above status. -/
def isRetryable (code : Nat) : Bool := code == 429 || 500 ≤ code

/-- `strconv.Atoi` (bit-width overflow not modelled). -/
def goAtoi (s : GoStr) : Option Int :=
  match s with
  | '+' :: ds => if ds ≠ [] ∧ ds.all isDigitCh then some ((digitsToNat ds : Int)) else none
  | '-' :: ds => if ds ≠ [] ∧ ds.all isDigitCh then some (-(digitsToNat ds : Int)) else none
  | ds => if ds ≠ [] ∧ ds.all isDigitCh then some ((digitsToNat ds : Int)) else none

def nsPerSec : Nat := 1000000000

/-- `defaultBackoff`: (1 << attempt) seconds, in nanoseconds. -/
def defaultBackoff (attempt : Nat) : Nat := 2 ^ attempt * nsPerSec

def maxRetries : Nat := 3

/-- Does the Retry-After wait fire for this response (429, parseable
positive hint, backoff schedule not disabled)? -/
def raActive (backoff : Nat → Nat) (resp : HTTPResponse) : Bool :=
  resp.statusCode == 429 &&
    (match goAtoi resp.retryAfter with
     | some secs => decide (0 < secs) && decide (0 < backoff 0)
     | none => false)

/-- The attempt loop of `Client.doWithRetry`.  The transport is an oracle
indexed by attempt; cancellation an oracle indexed by wait count (a
backoff wait before each retry, plus one more wait on an active
Retry-After hint).  Returns the Go `(resp, err)` pair (`none` is the
unreachable `(nil, nil)` fallthrough) and the number of requests made. -/
def doWithRetryAux (doReq : Nat → Except GoErr HTTPResponse)
    (backoff : Nat → Nat) (cancelled : Nat → Bool) :
    Nat → Nat → Nat → Option GoErr → Option (Except GoErr HTTPResponse) × Nat
  | _, 0, _, lastErr => (lastErr.map .error, 0)
  | attempt, rem + 1, waits, _ =>
    if 0 < attempt ∧ cancelled waits then (some (.error .canceled), 0)
    else
      let waits1 := if 0 < attempt then waits + 1 else waits
      match doReq attempt with
      | .error e => (some (.error e), 1)
      | .ok resp =>
        if resp.statusCode = 200 then (some (.ok resp), 1)
        else if ¬ isRetryable resp.statusCode then
          (some (.error (.status resp.statusCode resp.body)), 1)
        else
          if raActive backoff resp ∧ cancelled waits1 then (some (.error .canceled), 1)
          else
            let waits2 := if raActive backoff resp then waits1 + 1 else waits1
            let p := doWithRetryAux doReq backoff cancelled (attempt + 1) rem waits2
              (some (.status resp.statusCode resp.body))
            (p.1, p.2 + 1)

/-- `Client.doWithRetry` from client.go. -/
def clientDoWithRetry (doReq : Nat → Except GoErr HTTPResponse)
    (backoff : Nat → Nat) (cancelled : Nat → Bool) :
    Option (Except GoErr HTTPResponse) × Nat :=
  doWithRetryAux doReq backoff cancelled 0 (maxRetries + 1) 0 none

/-- `Activator.BuildAgent` from the tenthman package. -/
def tenthmanBuildAgent (agentID : Nat) (model : GoStr) : Agent :=
  ⟨agentID, gs ("The Tenth Man"), model, gs ("tenth-man")⟩

/-- `Activator.SystemPrompt` from the tenthman package. -/
def tenthmanSystemPrompt (consensusPosition : GoStr) : GoStr :=
  gs ("You are The Tenth Man. The group has reached consensus on the following position: ")
    ++ consensusPosition
    ++ gs (". You are OBLIGATED to argue the contrary position — not as token opposition, but with genuine analytical rigor. Build the strongest possible case AGAINST the consensus. Investigate, find evidence, construct scenarios where the majority is wrong. Be thorough but concise.")

def agentSystemPrompt (a : Agent) (topic : GoStr) : GoStr :=
  gs ("You are ") ++ a.name ++ gs (", a debate participant. The topic is: ") ++ topic
    ++ gs (". Provide your analysis and perspective. Be concise but thorough.")

def phase2SystemPrompt (a : Agent) (topic : GoStr) : GoStr :=
  gs ("You are ") ++ a.name ++ gs (", a debate participant. The topic is: ") ++ topic
    ++ gs (". The Tenth Man has been activated and is arguing against the group consensus. You MUST directly engage with the Tenth Man's arguments — address them specifically, refute or acknowledge them. Be concise but thorough.")

/-- `buildMessages` from prompts.go. -/
def buildMessages (a : Agent) (topic : GoStr) (tr : Transcript) (consensusPosition : GoStr) :
    List Message :=
  let sys : GoStr :=
    if a.role = gs ("tenth-man") then tenthmanSystemPrompt consensusPosition
    else if tr.phase = Phase.tenthManPhase ∧ a.role ≠ gs ("tenth-man") then
      phase2SystemPrompt a topic
    else agentSystemPrompt a topic
  ⟨gs ("system"), sys⟩ ::
    tr.turns.map (fun t => ⟨gs ("user"), t.agent.name ++ gs (": ") ++ t.content⟩)
    ++ [⟨gs ("user"), gs ("It's your turn to speak. Provide your perspective on the topic.")⟩]

/-- The collaborators injected into the engine, as deterministic oracles:
the LLM client (indexed by its call count), the consensus judge (indexed
by its call count), and the cancellation signal (indexed by the count of
`ctx.Err()` checks in `runRound`). -/
structure EngineW where
  llm : Nat → GoStr → List Message → Except GoErr ChatResponse
  judge : Nat → Transcript → Except GoErr ConsensusResult
  cancelled : Nat → Bool

structure Counters where
  llmCalls : Nat
  judgeCalls : Nat
  checks : Nat
  deriving DecidableEq

def ctrZero : Counters := ⟨0, 0, 0⟩

def bumpCtr (c : Counters) (l j k : Nat) : Counters :=
  ⟨c.llmCalls + l, c.judgeCalls + j, c.checks + k⟩

structure EngineState where
  topic : GoStr
  agents : List Agent
  transcript : Transcript
  minRounds : Nat
  maxRounds : Nat
  tenthManModel : GoStr
  consensusPosition : GoStr
  deriving DecidableEq

/-- `NewEngine`. -/
def newEngine (topic : GoStr) (agents : List Agent) (minRounds maxRounds : Nat) : EngineState :=
  ⟨topic, agents, ⟨topic, [], Phase.freeDebate, 0⟩, minRounds, maxRounds, [], []⟩

/-- `SetTenthManModel`. -/
def setTenthManModel (st : EngineState) (m : GoStr) : EngineState :=
  { st with tenthManModel := m }

/-- The agent loop inside `Engine.runRound`: cancellation check, prompt
build, LLM call, turn append, in participant order.  The engine state is
returned even on failure, since the Go engine keeps its transcript. -/
def runAgents (w : EngineW) (round : Nat) :
    List Agent → EngineState → Counters → EngineState × Counters × Option GoErr
  | [], st, ctr => (st, ctr, none)
  | a :: rest, st, ctr =>
    if w.cancelled ctr.checks then
      (st, { ctr with checks := ctr.checks + 1 }, some (.wrap (gs ("debate")) .canceled))
    else
      let ctr1 : Counters := { ctr with checks := ctr.checks + 1 }
      match w.llm ctr1.llmCalls a.model (buildMessages a st.topic st.transcript st.consensusPosition) with
      | .error e =>
        (st, { ctr1 with llmCalls := ctr1.llmCalls + 1 },
          some (.wrap (gs ("debate: agent ") ++ a.name) e))
      | .ok resp =>
        let content : GoStr :=
          match resp.choices with
          | [] => []
          | ch :: _ => ch.message.content
        runAgents w round rest
          { st with transcript :=
              { st.transcript with turns := st.transcript.turns ++ [⟨round, a, content⟩] } }
          { ctr1 with llmCalls := ctr1.llmCalls + 1 }

/-- `Engine.runRound`: the rounds-completed counter is set only after
every agent of the round has spoken. -/
def runRound (w : EngineW) (st : EngineState) (ctr : Counters) (round : Nat) :
    EngineState × Counters × Option GoErr :=
  match runAgents w round st.agents st ctr with
  | (st1, ctr1, none) =>
    ({ st1 with transcript := { st1.transcript with rounds := round } }, ctr1, none)
  | (st1, ctr1, some e) => (st1, ctr1, some e)

/-- Phase 1 of `Engine.Run`: rounds `round`, `round+1`, ... while fuel
lasts (fuel is `maxRounds-round+1` at every call), judging from
`minRounds` on and stopping on a detected consensus of score at least 7. -/
def phase1 (w : EngineW) :
    Nat → Nat → EngineState → Counters → Option ConsensusResult →
    EngineState × Counters × Option ConsensusResult × Option GoErr
  | 0, _, st, ctr, cons => (st, ctr, cons, none)
  | left + 1, round, st, ctr, cons =>
    match runRound w st ctr round with
    | (st1, ctr1, some e) => (st1, ctr1, cons, some e)
    | (st1, ctr1, none) =>
      if st1.minRounds ≤ round then
        match w.judge ctr1.judgeCalls st1.transcript with
        | .error e =>
          (st1, bumpCtr ctr1 0 1 0, cons,
            some (.wrap (gs ("debate: consensus evaluation")) e))
        | .ok c =>
          if c.detected ∧ 7 ≤ c.score then (st1, bumpCtr ctr1 0 1 0, some c, none)
          else phase1 w left (round + 1) st1 (bumpCtr ctr1 0 1 0) (some c)
      else phase1 w left (round + 1) st1 ctr1 cons

def tenthManRounds : Nat := 3

/-- Phase 2 of `Engine.Run`: a fixed number of additional rounds. -/
def phase2Rounds (w : EngineW) :
    Nat → Nat → EngineState → Counters → EngineState × Counters × Option GoErr
  | 0, _, st, ctr => (st, ctr, none)
  | left + 1, round, st, ctr =>
    match runRound w st ctr round with
    | (st1, ctr1, some e) => (st1, ctr1, some e)
    | (st1, ctr1, none) => phase2Rounds w left (round + 1) st1 ctr1

structure RunResult where
  transcript : Transcript
  consensus : Option ConsensusResult
  deriving DecidableEq

/-- Stand-in for `e.agents[0]` when the agent slice is empty; the Go code
panics there, outside the documented precondition of at least 3 agents. -/
def defaultAgent : Agent := ⟨0, [], [], []⟩

/-- Phase transition of `Engine.Run`: mark the transcript, pick the
tenth-man model (falling back to the first agent's model), build the
tenth-man agent and append it to the agent set. -/
def tenthManAppend (st1 : EngineState) (c : ConsensusResult) : EngineState :=
  let st2 := { st1 with transcript := { st1.transcript with phase := Phase.tenthManPhase } }
  let model := if st2.tenthManModel = [] then (st2.agents.headD defaultAgent).model
    else st2.tenthManModel
  let tmAgent := tenthmanBuildAgent (st2.agents.length + 1) model
  { st2 with agents := st2.agents ++ [tmAgent], consensusPosition := c.position }

/-- The final judge invocation of `Engine.Run` after phase 2. -/
def finalJudge (w : EngineW) (st4 : EngineState) (ctr4 : Counters) :
    EngineState × Counters × Except GoErr RunResult :=
  match w.judge ctr4.judgeCalls st4.transcript with
  | .error e =>
    (st4, bumpCtr ctr4 0 1 0,
      .error (.wrap (gs ("debate: final consensus evaluation")) e))
  | .ok cFinal => (st4, bumpCtr ctr4 0 1 0, .ok ⟨st4.transcript, some cFinal⟩)

/-- The tail of `Engine.Run` after phase 1 ends without error: on a
detected consensus of score at least 7, the phase switch and tenth-man
append, 3 more rounds and one final judge call; otherwise the result is
assembled directly. -/
def engineRunPost (w : EngineW) (st1 : EngineState) (ctr1 : Counters)
    (cons : Option ConsensusResult) : EngineState × Counters × Except GoErr RunResult :=
  match cons with
  | some c =>
    if c.detected ∧ 7 ≤ c.score then
      match phase2Rounds w tenthManRounds ((tenthManAppend st1 c).transcript.rounds + 1)
          (tenthManAppend st1 c) ctr1 with
      | (st4, ctr4, some e) => (st4, ctr4, .error e)
      | (st4, ctr4, none) => finalJudge w st4 ctr4
    else (st1, ctr1, .ok ⟨st1.transcript, some c⟩)
  | none => (st1, ctr1, .ok ⟨st1.transcript, none⟩)

/-- `Engine.Run`: phase 1, then `engineRunPost`.  The final engine state
is returned alongside the Go result so that the transcript remains
observable on failure. -/
def engineRun (w : EngineW) (st : EngineState) :
    EngineState × Counters × Except GoErr RunResult :=
  match phase1 w st.maxRounds 1 st ctrZero none with
  | (st1, ctr1, _, some e) => (st1, ctr1, .error e)
  | (st1, ctr1, cons, none) => engineRunPost w st1 ctr1 cons

/-- Projection of a turn to the data fixed by the engine (round number and
speaker), leaving only the model-generated text abstract. -/
def turnProj (t : Turn) : Nat × Agent := (t.round, t.agent)

/-- The (round, speaker) sequence of `len` full rounds starting at round
`start`: every round holds one turn per agent, in agent order. -/
def roundsProj (ags : List Agent) : Nat → Nat → List (Nat × Agent)
  | _, 0 => []
  | start, len + 1 => ags.map (fun a => (start, a)) ++ roundsProj ags (start + 1) len

def addTurns (st : EngineState) (ts : List Turn) : EngineState :=
  { st with transcript := { st.transcript with turns := st.transcript.turns ++ ts } }

def setRounds (st : EngineState) (r : Nat) : EngineState :=
  { st with transcript := { st.transcript with rounds := r } }

/-- Does a verdict trigger the phase transition (detected with score at
least 7)? -/
def triggB (c : ConsensusResult) : Bool := c.detected && decide (7 ≤ c.score)

/-- Index of the first triggering verdict among `v start, ..., v (start+n-1)`. -/
def firstTrigAux (v : Nat → ConsensusResult) : Nat → Nat → Option Nat
  | _, 0 => none
  | start, n + 1 => if triggB (v start) then some start else firstTrigAux v (start + 1) n

/-- The round at which phase 1 stops: the round of the first triggering
verdict, or `maxRounds` when none triggers. -/
def p1EndRound (verdicts : Nat → ConsensusResult) (minR maxR : Nat) : Nat :=
  match firstTrigAux verdicts 0 (maxR + 1 - minR) with
  | some k => minR + k
  | none => maxR

def tenthManModelPick (st1 : EngineState) : GoStr :=
  if st1.tenthManModel = [] then (st1.agents.headD defaultAgent).model else st1.tenthManModel

def wagentsW : List Agent :=
  [⟨1, gs ("Alice"), gs ("m1"), gs ("debater")⟩,
   ⟨2, gs ("Bob"), gs ("m2"), gs ("debater")⟩,
   ⟨3, gs ("Carol"), gs ("m3"), gs ("debater")⟩]

def okRespW : ChatResponse := ⟨[⟨⟨gs ("assistant"), gs ("response")⟩⟩]⟩

def vNoW : ConsensusResult := ⟨false, [], 3, []⟩

def vYesW : ConsensusResult := ⟨true, gs ("pos"), 8, []⟩

def engWYes : EngineW :=
  ⟨fun _ _ _ => Except.ok okRespW, fun _ _ => Except.ok vYesW, fun _ => false⟩

def engWNo : EngineW :=
  ⟨fun _ _ _ => Except.ok okRespW, fun _ _ => Except.ok vNoW, fun _ => false⟩

def engWCancel : EngineW :=
  ⟨fun _ _ _ => Except.ok okRespW, fun _ _ => Except.ok vNoW, fun _ => true⟩

def llmUnpW : Nat → List Message → Except GoErr ChatResponse :=
  fun _ _ => .ok ⟨[⟨⟨gs ("assistant"), gs ("not json")⟩⟩]⟩

def trW : Transcript := ⟨gs ("topic"), [], Phase.freeDebate, 0⟩

def reqSchedW : Nat → Except GoErr HTTPResponse :=
  fun k => if k < 2 then .ok ⟨429, gs ("slow down"), []⟩ else .ok ⟨200, gs ("okbody"), []⟩

def payloadMidW : GoStr :=
  gs ("\"consensus_detected\": true, \"consensus_position\": \"p\", \"agreement_score\": 8, \"dissenting_agents\": []")

def payloadW : GoStr := '\x7b' :: (payloadMidW ++ ['\x7d'])

def vW : ConsensusResult := ⟨true, gs ("p"), 8, []⟩

/-- The characters on which `pValue` can begin a value. -/
def jsonStartCh (c : Char) : Bool :=
  c == 'n' || c == 't' || c == 'f' || c == '"' || c == '-' || isDigitCh c ||
    c == '[' || c == '\x7b'

theorem roundsProj_length (ags : List Agent) :
    ∀ start len, (roundsProj ags start len).length = len * ags.length := by
  intro start len
  induction len generalizing start with
  | zero => simp [roundsProj]
  | succ n ih => simp [roundsProj, ih, Nat.succ_mul, Nat.add_comm]

theorem addTurns_addTurns (st : EngineState) (ts1 ts2 : List Turn) :
    addTurns (addTurns st ts1) ts2 = addTurns st (ts1 ++ ts2) := by
  simp [addTurns, List.append_assoc]

theorem addTurns_nil (st : EngineState) : addTurns st [] = st := by
  simp [addTurns]

theorem bumpCtr_bumpCtr (c : Counters) (a b d e f g : Nat) :
    bumpCtr (bumpCtr c a b d) e f g = bumpCtr c (a + e) (b + f) (d + g) := by
  simp [bumpCtr, Nat.add_assoc]

theorem bumpCtr_zero (c : Counters) : bumpCtr c 0 0 0 = c := by
  simp [bumpCtr]

/-- `runAgents` only ever appends turns carrying the current round number;
every other engine-state component is untouched, whatever the oracles do. -/
theorem runAgents_change (w : EngineW) (round : Nat) :
    ∀ ags st ctr, ∃ ts, (runAgents w round ags st ctr).1 = addTurns st ts ∧
      ∀ t ∈ ts, t.round = round := by
  intro ags
  induction ags with
  | nil =>
    intro st ctr
    exact ⟨[], by simp [runAgents, addTurns_nil], by simp⟩
  | cons a rest ih =>
    intro st ctr
    by_cases hc : w.cancelled ctr.checks
    · exact ⟨[], by simp [runAgents, hc, addTurns_nil], by simp⟩
    · cases hllm : w.llm ctr.llmCalls a.model
        (buildMessages a st.topic st.transcript st.consensusPosition) with
      | error e =>
        refine ⟨[], ?_, by simp⟩
        simp [runAgents, hc]
        simp_all [addTurns_nil]
      | ok resp =>
        obtain ⟨ts, hts, hr⟩ := ih
          (addTurns st [⟨round, a,
            match resp.choices with
            | [] => []
            | ch :: _ => ch.message.content⟩])
          { llmCalls := ctr.llmCalls + 1, judgeCalls := ctr.judgeCalls, checks := ctr.checks + 1 }
        refine ⟨(⟨round, a,
            match resp.choices with
            | [] => []
            | ch :: _ => ch.message.content⟩ : Turn) :: ts, ?_, ?_⟩
        · simpa [runAgents, hc, hllm, addTurns_addTurns] using hts
        · intro t ht
          rcases List.mem_cons.mp ht with h | h
          · subst h; rfl
          · exact hr t h

/-- `runAgents` under no cancellation and an always-successful LLM: one
turn per agent, in order, all counters advanced by the agent count. -/
theorem runAgents_ok (w : EngineW) (round : Nat)
    (hllm : ∀ k m ms, ∃ r, w.llm k m ms = Except.ok r) :
    ∀ ags st ctr, (∀ k, k < ags.length → w.cancelled (ctr.checks + k) = false) →
    ∃ ts, runAgents w round ags st ctr =
      (addTurns st ts, bumpCtr ctr ags.length 0 ags.length, none) ∧
      ts.map turnProj = ags.map (fun a => (round, a)) := by
  intro ags
  induction ags with
  | nil =>
    intro st ctr _
    exact ⟨[], by simp [runAgents, addTurns_nil, bumpCtr], by simp⟩
  | cons a rest ih =>
    intro st ctr hnc
    have hc : w.cancelled ctr.checks = false := by simpa using hnc 0 (by simp)
    obtain ⟨resp, hresp⟩ := hllm ctr.llmCalls a.model
      (buildMessages a st.topic st.transcript st.consensusPosition)
    have hnc2 : ∀ k, k < rest.length →
        w.cancelled ((bumpCtr ctr 1 0 1).checks + k) = false := by
      intro k hk
      have := hnc (k + 1) (by simpa using Nat.succ_lt_succ hk)
      simpa [bumpCtr, Nat.add_assoc, Nat.add_comm 1 k] using this
    obtain ⟨ts, hts, hproj⟩ := ih
      (addTurns st [⟨round, a,
        match resp.choices with
        | [] => []
        | ch :: _ => ch.message.content⟩])
      (bumpCtr ctr 1 0 1) hnc2
    refine ⟨(⟨round, a,
        match resp.choices with
        | [] => []
        | ch :: _ => ch.message.content⟩ : Turn) :: ts, ?_, ?_⟩
    · have hstep : runAgents w round (a :: rest) st ctr =
          runAgents w round rest
            (addTurns st [⟨round, a,
              match resp.choices with
              | [] => []
              | ch :: _ => ch.message.content⟩])
            (bumpCtr ctr 1 0 1) := by
        simp [runAgents, hc, hresp, addTurns, bumpCtr]
      rw [hstep, hts, addTurns_addTurns, bumpCtr_bumpCtr]
      simp [Nat.add_comm]
    · simp [turnProj] at hproj ⊢
      exact hproj

/-- `runAgents` when cancellation is first observed at the check before
the `j`-th agent of the round: the `j` earlier turns are kept, the round
aborts with a wrapped cancellation error, and no further LLM call is
made. -/
theorem runAgents_cancelAt (w : EngineW) (round : Nat)
    (hllm : ∀ k m ms, ∃ r, w.llm k m ms = Except.ok r) :
    ∀ ags st ctr j, j < ags.length →
    (∀ k, k < j → w.cancelled (ctr.checks + k) = false) →
    w.cancelled (ctr.checks + j) = true →
    ∃ ts, runAgents w round ags st ctr =
      (addTurns st ts, bumpCtr ctr j 0 (j + 1), some (.wrap (gs ("debate")) .canceled)) ∧
      ts.map turnProj = (ags.take j).map (fun a => (round, a)) := by
  intro ags
  induction ags with
  | nil => intro st ctr j hj; exact absurd hj (by simp)
  | cons a rest ih =>
    intro st ctr j hj hbefore hat
    cases j with
    | zero =>
      refine ⟨[], ?_, by simp⟩
      have hc : w.cancelled ctr.checks = true := by simpa using hat
      simp [runAgents, hc, addTurns_nil, bumpCtr]
    | succ j' =>
      have hc : w.cancelled ctr.checks = false := by
        simpa using hbefore 0 (Nat.succ_pos j')
      obtain ⟨resp, hresp⟩ := hllm ctr.llmCalls a.model
        (buildMessages a st.topic st.transcript st.consensusPosition)
      have hb2 : ∀ k, k < j' → w.cancelled ((bumpCtr ctr 1 0 1).checks + k) = false := by
        intro k hk
        have := hbefore (k + 1) (Nat.succ_lt_succ hk)
        simpa [bumpCtr, Nat.add_assoc, Nat.add_comm 1 k] using this
      have hat2 : w.cancelled ((bumpCtr ctr 1 0 1).checks + j') = true := by
        have he : (bumpCtr ctr 1 0 1).checks + j' = ctr.checks + (j' + 1) := by
          simp [bumpCtr]; omega
        rw [he]; exact hat
      obtain ⟨ts, hts, hproj⟩ := ih
        (addTurns st [⟨round, a,
          match resp.choices with
          | [] => []
          | ch :: _ => ch.message.content⟩])
        (bumpCtr ctr 1 0 1) j' (by simpa using Nat.lt_of_succ_lt_succ hj) hb2 hat2
      refine ⟨(⟨round, a,
          match resp.choices with
          | [] => []
          | ch :: _ => ch.message.content⟩ : Turn) :: ts, ?_, ?_⟩
      · have hstep : runAgents w round (a :: rest) st ctr =
            runAgents w round rest
              (addTurns st [⟨round, a,
                match resp.choices with
                | [] => []
                | ch :: _ => ch.message.content⟩])
              (bumpCtr ctr 1 0 1) := by
          simp [runAgents, hc, hresp, addTurns, bumpCtr]
        rw [hstep, hts, addTurns_addTurns, bumpCtr_bumpCtr]
        simp [Nat.add_comm]
      · simp [turnProj] at hproj ⊢
        exact hproj

theorem runRound_ok (w : EngineW) (st : EngineState) (ctr : Counters) (round : Nat)
    (hllm : ∀ k m ms, ∃ r, w.llm k m ms = Except.ok r)
    (hnc : ∀ k, k < st.agents.length → w.cancelled (ctr.checks + k) = false) :
    ∃ ts, runRound w st ctr round =
      (setRounds (addTurns st ts) round,
        bumpCtr ctr st.agents.length 0 st.agents.length, none) ∧
      ts.map turnProj = st.agents.map (fun a => (round, a)) := by
  obtain ⟨ts, hts, hproj⟩ := runAgents_ok w round hllm st.agents st ctr hnc
  exact ⟨ts, by simp [runRound, hts, setRounds], hproj⟩

theorem runRound_cancelAt (w : EngineW) (st : EngineState) (ctr : Counters) (round j : Nat)
    (hllm : ∀ k m ms, ∃ r, w.llm k m ms = Except.ok r)
    (hj : j < st.agents.length)
    (hbefore : ∀ k, k < j → w.cancelled (ctr.checks + k) = false)
    (hat : w.cancelled (ctr.checks + j) = true) :
    ∃ ts, runRound w st ctr round =
      (addTurns st ts, bumpCtr ctr j 0 (j + 1), some (.wrap (gs ("debate")) .canceled)) ∧
      ts.map turnProj = (st.agents.take j).map (fun a => (round, a)) := by
  obtain ⟨ts, hts, hproj⟩ := runAgents_cancelAt w round hllm st.agents st ctr j hj hbefore hat
  exact ⟨ts, by simp [runRound, hts], hproj⟩

/-- Whatever the oracles do, a failing `runRound` leaves the
rounds-completed counter untouched while the turns it already appended
(all carrying the current round number) stay in the transcript. -/
theorem runRound_err (w : EngineW) (st : EngineState) (ctr : Counters) (round : Nat)
    (e : GoErr) (h : (runRound w st ctr round).2.2 = some e) :
    ∃ ts, (runRound w st ctr round).1 = addTurns st ts ∧ ∀ t ∈ ts, t.round = round := by
  obtain ⟨ts, hts, hr⟩ := runAgents_change w round st.agents st ctr
  refine ⟨ts, ?_, hr⟩
  unfold runRound at h ⊢
  rcases hra : runAgents w round st.agents st ctr with ⟨st1, ctr1, err⟩
  rw [hra] at h hts
  cases err with
  | none => simp at h
  | some e2 => simpa using hts

@[simp] theorem addTurns_topic (st : EngineState) (ts : List Turn) : (addTurns st ts).topic = st.topic := rfl

@[simp] theorem addTurns_agents (st : EngineState) (ts : List Turn) : (addTurns st ts).agents = st.agents := rfl

@[simp] theorem addTurns_minRounds (st : EngineState) (ts : List Turn) :
    (addTurns st ts).minRounds = st.minRounds := rfl

@[simp] theorem addTurns_maxRounds (st : EngineState) (ts : List Turn) :
    (addTurns st ts).maxRounds = st.maxRounds := rfl

@[simp] theorem addTurns_phase (st : EngineState) (ts : List Turn) :
    (addTurns st ts).transcript.phase = st.transcript.phase := rfl

@[simp] theorem addTurns_rounds (st : EngineState) (ts : List Turn) :
    (addTurns st ts).transcript.rounds = st.transcript.rounds := rfl

@[simp] theorem addTurns_turns (st : EngineState) (ts : List Turn) :
    (addTurns st ts).transcript.turns = st.transcript.turns ++ ts := rfl

@[simp] theorem setRounds_topic (st : EngineState) (r : Nat) : (setRounds st r).topic = st.topic := rfl

@[simp] theorem setRounds_agents (st : EngineState) (r : Nat) : (setRounds st r).agents = st.agents := rfl

@[simp] theorem setRounds_minRounds (st : EngineState) (r : Nat) :
    (setRounds st r).minRounds = st.minRounds := rfl

@[simp] theorem setRounds_maxRounds (st : EngineState) (r : Nat) :
    (setRounds st r).maxRounds = st.maxRounds := rfl

@[simp] theorem setRounds_phase (st : EngineState) (r : Nat) :
    (setRounds st r).transcript.phase = st.transcript.phase := rfl

@[simp] theorem setRounds_rounds (st : EngineState) (r : Nat) :
    (setRounds st r).transcript.rounds = r := rfl

@[simp] theorem setRounds_turns (st : EngineState) (r : Nat) :
    (setRounds st r).transcript.turns = st.transcript.turns := rfl

theorem addTurns_setRounds (st : EngineState) (r : Nat) (ts : List Turn) :
    addTurns (setRounds st r) ts = setRounds (addTurns st ts) r := rfl

theorem setRounds_setRounds (st : EngineState) (r1 r2 : Nat) :
    setRounds (setRounds st r1) r2 = setRounds st r2 := rfl

theorem setRounds_self (st : EngineState) (r : Nat) (h : st.transcript.rounds = r) :
    setRounds st r = st := by
  cases st with
  | mk topic agents transcript minR maxR tm cp =>
    cases transcript
    simp [setRounds] at h ⊢
    exact h.symm

theorem triggB_iff (c : ConsensusResult) : triggB c = true ↔ (c.detected = true ∧ 7 ≤ c.score) := by
  simp [triggB]

theorem firstTrigAux_none (v : Nat → ConsensusResult) :
    ∀ n start, firstTrigAux v start n = none →
    ∀ k, start ≤ k → k < start + n → triggB (v k) = false := by
  intro n
  induction n with
  | zero => intro start _ k h1 h2; omega
  | succ m ih =>
    intro start h k h1 h2
    by_cases ht : triggB (v start)
    · simp [firstTrigAux, ht] at h
    · rcases Nat.eq_or_lt_of_le h1 with rfl | hlt
      · simpa using ht
      · simp [firstTrigAux, ht] at h
        exact ih (start + 1) h k hlt (by omega)

theorem firstTrigAux_some (v : Nat → ConsensusResult) :
    ∀ n start k, firstTrigAux v start n = some k →
    start ≤ k ∧ k < start + n ∧ triggB (v k) = true ∧
      ∀ j, start ≤ j → j < k → triggB (v j) = false := by
  intro n
  induction n with
  | zero => intro start k h; simp [firstTrigAux] at h
  | succ m ih =>
    intro start k h
    by_cases ht : triggB (v start)
    · simp [firstTrigAux, ht] at h
      subst h
      exact ⟨Nat.le_refl _, by omega, ht, fun j h1 h2 => by omega⟩
    · simp [firstTrigAux, ht] at h
      obtain ⟨h1, h2, h3, h4⟩ := ih (start + 1) k h
      refine ⟨by omega, by omega, h3, ?_⟩
      intro j hj1 hj2
      rcases Nat.eq_or_lt_of_le hj1 with rfl | hlt
      · simpa using ht
      · exact h4 j hlt hj2

theorem firstTrigAux_find (v : Nat → ConsensusResult) :
    ∀ n start k, start ≤ k → k < start + n → triggB (v k) = true →
    (∀ j, start ≤ j → j < k → triggB (v j) = false) →
    firstTrigAux v start n = some k := by
  intro n
  induction n with
  | zero => intro start k h1 h2; omega
  | succ m ih =>
    intro start k h1 h2 h3 h4
    rcases Nat.eq_or_lt_of_le h1 with rfl | hlt
    · simp [firstTrigAux, h3]
    · have hs : triggB (v start) = false := h4 start (Nat.le_refl _) hlt
      simp [firstTrigAux, hs]
      exact ih (start + 1) k hlt (by omega) h3 (fun j hj1 hj2 => h4 j (by omega) hj2)

@[simp] theorem bumpCtr_llmCalls (c : Counters) (l j k : Nat) :
    (bumpCtr c l j k).llmCalls = c.llmCalls + l := rfl

@[simp] theorem bumpCtr_judgeCalls (c : Counters) (l j k : Nat) :
    (bumpCtr c l j k).judgeCalls = c.judgeCalls + j := rfl

@[simp] theorem bumpCtr_checks (c : Counters) (l j k : Nat) :
    (bumpCtr c l j k).checks = c.checks + k := rfl

/-- Phase 1 of the engine under the success frame (no cancellation, every
LLM call succeeds, every judge call returns a verdict): it runs rounds up
to and including `p1EndRound`, appends one turn per agent per round in
order, makes one judge call per round from `minRounds` on, and ends with
the verdict of its last judge call. -/
theorem phase1_ok (w : EngineW) (verdicts : Nat → ConsensusResult)
    (hllm : ∀ k m ms, ∃ r, w.llm k m ms = Except.ok r)
    (hnc : ∀ k, w.cancelled k = false)
    (hj : ∀ k t, w.judge k t = Except.ok (verdicts k)) :
    ∀ left round st ctr cons,
    1 ≤ st.minRounds → st.minRounds ≤ st.maxRounds →
    round + left = st.maxRounds + 1 →
    st.transcript.rounds = round - 1 →
    ctr.judgeCalls = round - st.minRounds →
    ((round ≤ st.minRounds ∧ cons = none) ∨
      (st.minRounds < round ∧ cons = some (verdicts (round - st.minRounds - 1)))) →
    (∀ k, k < round - st.minRounds → triggB (verdicts k) = false) →
    ∃ ts,
      phase1 w left round st ctr cons =
        (setRounds (addTurns st ts) (p1EndRound verdicts st.minRounds st.maxRounds),
         ⟨ctr.llmCalls + st.agents.length * (p1EndRound verdicts st.minRounds st.maxRounds + 1 - round),
          p1EndRound verdicts st.minRounds st.maxRounds + 1 - st.minRounds,
          ctr.checks + st.agents.length * (p1EndRound verdicts st.minRounds st.maxRounds + 1 - round)⟩,
         some (verdicts (p1EndRound verdicts st.minRounds st.maxRounds - st.minRounds)), none) ∧
      ts.map turnProj =
        roundsProj st.agents round (p1EndRound verdicts st.minRounds st.maxRounds + 1 - round) := by
  intro left
  induction left with
  | zero =>
    intro round st ctr cons h1 h2 h3 h4 h5 h6 h7
    have hround : round = st.maxRounds + 1 := by omega
    subst hround
    have hnone : firstTrigAux verdicts 0 (st.maxRounds + 1 - st.minRounds) = none := by
      cases hft : firstTrigAux verdicts 0 (st.maxRounds + 1 - st.minRounds) with
      | none => rfl
      | some k =>
        obtain ⟨_, hk2, hk3, _⟩ := firstTrigAux_some verdicts _ 0 k hft
        have hf := h7 k (by omega)
        rw [hf] at hk3
        exact absurd hk3 (by simp)
    have hend : p1EndRound verdicts st.minRounds st.maxRounds = st.maxRounds := by
      simp [p1EndRound, hnone]
    rcases h6 with ⟨hle, _⟩ | ⟨hlt, hcons⟩
    · omega
    · subst hcons
      refine ⟨[], ?_, ?_⟩
      · rw [hend]
        have hd : st.maxRounds + 1 - (st.maxRounds + 1) = 0 := by omega
        rw [hd]
        simp only [phase1, Nat.mul_zero, Nat.add_zero, addTurns_nil]
        rw [setRounds_self st st.maxRounds (by omega)]
        have hctr : (⟨ctr.llmCalls, st.maxRounds + 1 - st.minRounds, ctr.checks⟩ : Counters) = ctr := by
          cases ctr with
          | mk l j c =>
            simp at h5 ⊢
            omega
        rw [hctr, show st.maxRounds - st.minRounds = st.maxRounds + 1 - st.minRounds - 1 from by omega]
      · rw [hend]
        have hd : st.maxRounds + 1 - (st.maxRounds + 1) = 0 := by omega
        rw [hd]
        simp [roundsProj]
  | succ leftN ih =>
    intro round st ctr cons h1 h2 h3 h4 h5 h6 h7
    have hrle : round ≤ st.maxRounds := by omega
    obtain ⟨ts1, hrr, hproj1⟩ := runRound_ok w st ctr round hllm (fun k _ => hnc _)
    have hEminR : st.minRounds ≤ p1EndRound verdicts st.minRounds st.maxRounds := by
      rcases hft : firstTrigAux verdicts 0 (st.maxRounds + 1 - st.minRounds) with _ | k
      · simp [p1EndRound, hft]
        exact h2
      · simp [p1EndRound, hft]
    have hEmaxR : p1EndRound verdicts st.minRounds st.maxRounds ≤ st.maxRounds := by
      rcases hft : firstTrigAux verdicts 0 (st.maxRounds + 1 - st.minRounds) with _ | k
      · simp [p1EndRound, hft]
      · obtain ⟨_, hk2, _, _⟩ := firstTrigAux_some verdicts _ 0 k hft
        simp [p1EndRound, hft]
        omega
    by_cases hmin : st.minRounds ≤ round
    · have hjc1 : (bumpCtr ctr st.agents.length 0 st.agents.length).judgeCalls =
          round - st.minRounds := by simp [h5]
      by_cases htr : (verdicts (round - st.minRounds)).detected = true ∧
          7 ≤ (verdicts (round - st.minRounds)).score
      · -- trigger: stop now
        have htrb : triggB (verdicts (round - st.minRounds)) = true := (triggB_iff _).mpr htr
        have hfind : firstTrigAux verdicts 0 (st.maxRounds + 1 - st.minRounds) =
            some (round - st.minRounds) := by
          apply firstTrigAux_find verdicts _ 0 _ (Nat.zero_le _) (by omega) htrb
          intro j _ hj2
          exact h7 j hj2
        have hend : p1EndRound verdicts st.minRounds st.maxRounds = round := by
          simp [p1EndRound, hfind]
          omega
        refine ⟨ts1, ?_, ?_⟩
        · rw [hend]
          have hd : round + 1 - round = 1 := by omega
          rw [hd]
          simp only [phase1]
          rw [hrr]
          simp only [setRounds_minRounds, addTurns_minRounds, if_pos hmin]
          rw [hjc1, hj (round - st.minRounds) _]
          simp only [if_pos htr]
          have hc : bumpCtr (bumpCtr ctr st.agents.length 0 st.agents.length) 0 1 0 =
              (⟨ctr.llmCalls + st.agents.length * 1, round + 1 - st.minRounds,
                ctr.checks + st.agents.length * 1⟩ : Counters) := by
            simp [bumpCtr, h5]
            omega
          rw [hc]
        · rw [hend]
          have hd : round + 1 - round = 1 := by omega
          rw [hd]
          simpa [roundsProj] using hproj1
      · -- no trigger: continue
        have htrb : triggB (verdicts (round - st.minRounds)) = false := by
          rcases Bool.eq_false_or_eq_true (triggB (verdicts (round - st.minRounds))) with h | h
          · exact absurd ((triggB_iff _).mp h) htr
          · exact h
        have h7' : ∀ k, k < round + 1 - st.minRounds → triggB (verdicts k) = false := by
          intro k hk
          rcases Nat.lt_or_ge k (round - st.minRounds) with hlt2 | hge
          · exact h7 k hlt2
          · have hkk : k = round - st.minRounds := by omega
            rw [hkk]
            exact htrb
        have hEgt : round ≤ p1EndRound verdicts st.minRounds st.maxRounds := by
          rcases hft : firstTrigAux verdicts 0 (st.maxRounds + 1 - st.minRounds) with _ | k
          · simp [p1EndRound, hft]
            omega
          · obtain ⟨_, _, hk3, _⟩ := firstTrigAux_some verdicts _ 0 k hft
            have hkge : ¬ k < round + 1 - st.minRounds := by
              intro hcon
              rw [h7' k hcon] at hk3
              exact absurd hk3 (by simp)
            simp [p1EndRound, hft]
            omega
        obtain ⟨ts2, hts2, hproj2⟩ := ih (round + 1)
          (setRounds (addTurns st ts1) round)
          ⟨ctr.llmCalls + st.agents.length, round + 1 - st.minRounds,
            ctr.checks + st.agents.length⟩
          (some (verdicts (round - st.minRounds)))
          (by simpa using h1) (by simpa using h2) (by simp; omega) (by simp)
          (by simp)
          (by
            right
            refine ⟨by simp; omega, ?_⟩
            have hgoal : round + 1 - (setRounds (addTurns st ts1) round).minRounds - 1 =
                round - st.minRounds := by
              simp
              omega
            rw [hgoal])
          (by
            intro k hk
            simp at hk
            exact h7' k hk)
        simp only [setRounds_minRounds, addTurns_minRounds, setRounds_maxRounds,
          addTurns_maxRounds, setRounds_agents, addTurns_agents] at hts2 hproj2
        refine ⟨ts1 ++ ts2, ?_, ?_⟩
        · simp only [phase1]
          rw [hrr]
          simp only [setRounds_minRounds, addTurns_minRounds, if_pos hmin]
          rw [hjc1, hj (round - st.minRounds) _]
          simp only [if_neg htr]
          have hc : bumpCtr (bumpCtr ctr st.agents.length 0 st.agents.length) 0 1 0 =
              (⟨ctr.llmCalls + st.agents.length, round + 1 - st.minRounds,
                ctr.checks + st.agents.length⟩ : Counters) := by
            simp [bumpCtr, h5]
            omega
          rw [hc, hts2, addTurns_setRounds, addTurns_addTurns, setRounds_setRounds]
          have hd : p1EndRound verdicts st.minRounds st.maxRounds + 1 - round =
              (p1EndRound verdicts st.minRounds st.maxRounds + 1 - (round + 1)) + 1 := by omega
          rw [hd]
          have hl : ctr.llmCalls + st.agents.length +
              st.agents.length * (p1EndRound verdicts st.minRounds st.maxRounds + 1 - (round + 1)) =
              ctr.llmCalls + st.agents.length *
                ((p1EndRound verdicts st.minRounds st.maxRounds + 1 - (round + 1)) + 1) := by
            rw [Nat.mul_succ]
            omega
          have hk : ctr.checks + st.agents.length +
              st.agents.length * (p1EndRound verdicts st.minRounds st.maxRounds + 1 - (round + 1)) =
              ctr.checks + st.agents.length *
                ((p1EndRound verdicts st.minRounds st.maxRounds + 1 - (round + 1)) + 1) := by
            rw [Nat.mul_succ]
            omega
          rw [hl, hk]
        · rw [List.map_append, hproj1, hproj2]
          have hd : p1EndRound verdicts st.minRounds st.maxRounds + 1 - round =
              (p1EndRound verdicts st.minRounds st.maxRounds + 1 - (round + 1)) + 1 := by omega
          rw [hd]
          rfl
    · -- below minRounds: no judge call yet
      have hlt : round < st.minRounds := by omega
      have hcons : cons = none := by
        rcases h6 with ⟨_, h⟩ | ⟨hgt, _⟩
        · exact h
        · omega
      subst hcons
      obtain ⟨ts2, hts2, hproj2⟩ := ih (round + 1)
        (setRounds (addTurns st ts1) round)
        (bumpCtr ctr st.agents.length 0 st.agents.length)
        none
        (by simpa using h1) (by simpa using h2) (by simp; omega) (by simp)
        (by simp; omega)
        (by
          left
          refine ⟨by simp; omega, rfl⟩)
        (by
          intro k hk
          simp at hk
          omega)
      simp only [setRounds_minRounds, addTurns_minRounds, setRounds_maxRounds,
        addTurns_maxRounds, setRounds_agents, addTurns_agents, bumpCtr_llmCalls,
        bumpCtr_judgeCalls, bumpCtr_checks] at hts2 hproj2
      refine ⟨ts1 ++ ts2, ?_, ?_⟩
      · simp only [phase1]
        rw [hrr]
        simp only [setRounds_minRounds, addTurns_minRounds, if_neg hmin]
        rw [hts2, addTurns_setRounds, addTurns_addTurns, setRounds_setRounds]
        have hd : p1EndRound verdicts st.minRounds st.maxRounds + 1 - round =
            (p1EndRound verdicts st.minRounds st.maxRounds + 1 - (round + 1)) + 1 := by omega
        rw [hd]
        have hl : ctr.llmCalls + st.agents.length +
            st.agents.length * (p1EndRound verdicts st.minRounds st.maxRounds + 1 - (round + 1)) =
            ctr.llmCalls + st.agents.length *
              ((p1EndRound verdicts st.minRounds st.maxRounds + 1 - (round + 1)) + 1) := by
          rw [Nat.mul_succ]
          omega
        have hk : ctr.checks + st.agents.length +
            st.agents.length * (p1EndRound verdicts st.minRounds st.maxRounds + 1 - (round + 1)) =
            ctr.checks + st.agents.length *
              ((p1EndRound verdicts st.minRounds st.maxRounds + 1 - (round + 1)) + 1) := by
          rw [Nat.mul_succ]
          omega
        rw [hl, hk]
      · rw [List.map_append, hproj1, hproj2]
        have hd : p1EndRound verdicts st.minRounds st.maxRounds + 1 - round =
            (p1EndRound verdicts st.minRounds st.maxRounds + 1 - (round + 1)) + 1 := by omega
        rw [hd]
        rfl

@[simp] theorem addTurns_tenthManModel (st : EngineState) (ts : List Turn) :
    (addTurns st ts).tenthManModel = st.tenthManModel := rfl

@[simp] theorem addTurns_consensusPosition (st : EngineState) (ts : List Turn) :
    (addTurns st ts).consensusPosition = st.consensusPosition := rfl

@[simp] theorem setRounds_tenthManModel (st : EngineState) (r : Nat) :
    (setRounds st r).tenthManModel = st.tenthManModel := rfl

@[simp] theorem setRounds_consensusPosition (st : EngineState) (r : Nat) :
    (setRounds st r).consensusPosition = st.consensusPosition := rfl

@[simp] theorem addTurns_ttopic (st : EngineState) (ts : List Turn) :
    (addTurns st ts).transcript.topic = st.transcript.topic := rfl

@[simp] theorem setRounds_ttopic (st : EngineState) (r : Nat) :
    (setRounds st r).transcript.topic = st.transcript.topic := rfl

/-- Phase 2 of the engine under the success frame: `cnt` full rounds with
the current agent set, each appending one turn per agent in order. -/
theorem phase2Rounds_ok (w : EngineW)
    (hllm : ∀ k m ms, ∃ r, w.llm k m ms = Except.ok r)
    (hnc : ∀ k, w.cancelled k = false) :
    ∀ cnt round st ctr, st.transcript.rounds = round - 1 → 1 ≤ round →
    ∃ ts, phase2Rounds w cnt round st ctr =
      (setRounds (addTurns st ts) (round + cnt - 1),
        bumpCtr ctr (st.agents.length * cnt) 0 (st.agents.length * cnt), none) ∧
      ts.map turnProj = roundsProj st.agents round cnt := by
  intro cnt
  induction cnt with
  | zero =>
    intro round st ctr h1 h2
    refine ⟨[], ?_, by simp [roundsProj]⟩
    rw [addTurns_nil, setRounds_self st _ (by omega)]
    simp [phase2Rounds, bumpCtr]
  | succ c ih =>
    intro round st ctr h1 h2
    obtain ⟨ts1, hrr, hproj1⟩ := runRound_ok w st ctr round hllm (fun k _ => hnc _)
    obtain ⟨ts2, hts2, hproj2⟩ := ih (round + 1) (setRounds (addTurns st ts1) round)
      (bumpCtr ctr st.agents.length 0 st.agents.length) (by simp) (by omega)
    simp only [setRounds_agents, addTurns_agents] at hts2 hproj2
    refine ⟨ts1 ++ ts2, ?_, ?_⟩
    · simp only [phase2Rounds]
      rw [hrr]
      show phase2Rounds w c (round + 1) (setRounds (addTurns st ts1) round)
        (bumpCtr ctr st.agents.length 0 st.agents.length) = _
      rw [hts2, addTurns_setRounds, addTurns_addTurns, setRounds_setRounds,
        bumpCtr_bumpCtr]
      have he1 : round + 1 + c - 1 = round + (c + 1) - 1 := by omega
      have he2 : st.agents.length + st.agents.length * c = st.agents.length * (c + 1) := by
        rw [Nat.mul_succ]
        omega
      rw [he1, he2]
    · rw [List.map_append, hproj1, hproj2]
      rfl

@[simp] theorem tenthManAppend_agents (st1 : EngineState) (c : ConsensusResult) :
    (tenthManAppend st1 c).agents =
      st1.agents ++ [tenthmanBuildAgent (st1.agents.length + 1) (tenthManModelPick st1)] := rfl

@[simp] theorem tenthManAppend_rounds (st1 : EngineState) (c : ConsensusResult) :
    (tenthManAppend st1 c).transcript.rounds = st1.transcript.rounds := rfl

@[simp] theorem tenthManAppend_turns (st1 : EngineState) (c : ConsensusResult) :
    (tenthManAppend st1 c).transcript.turns = st1.transcript.turns := rfl

@[simp] theorem tenthManAppend_phase (st1 : EngineState) (c : ConsensusResult) :
    (tenthManAppend st1 c).transcript.phase = Phase.tenthManPhase := rfl

/-- The triggered tail of `Engine.Run` under the success frame: exactly 3
further rounds with the agent set enlarged by the single tenth-man agent,
then exactly one more judge call whose verdict becomes the result's
consensus. -/
theorem finalJudge_ok (w : EngineW) (verdicts : Nat → ConsensusResult)
    (hj : ∀ k t, w.judge k t = Except.ok (verdicts k)) (st4 : EngineState) (ctr4 : Counters) :
    finalJudge w st4 ctr4 =
      (st4, bumpCtr ctr4 0 1 0, .ok ⟨st4.transcript, some (verdicts ctr4.judgeCalls)⟩) := by
  unfold finalJudge
  rw [hj]

/-- The triggered tail of `Engine.Run` under the success frame: exactly 3
further rounds with the agent set enlarged by the single tenth-man agent,
then exactly one more judge call whose verdict becomes the result's
consensus. -/
theorem engineRunPost_trig (w : EngineW) (verdicts : Nat → ConsensusResult)
    (hllm : ∀ k m ms, ∃ r, w.llm k m ms = Except.ok r)
    (hnc : ∀ k, w.cancelled k = false)
    (hj : ∀ k t, w.judge k t = Except.ok (verdicts k))
    (st1 : EngineState) (ctr1 : Counters) (c : ConsensusResult)
    (hcond : c.detected = true ∧ 7 ≤ c.score) :
    ∃ stF ts2,
      engineRunPost w st1 ctr1 (some c) =
        (stF, bumpCtr ctr1 ((st1.agents.length + 1) * 3) 1 ((st1.agents.length + 1) * 3),
          .ok ⟨stF.transcript, some (verdicts ctr1.judgeCalls)⟩) ∧
      stF.agents = st1.agents ++
        [tenthmanBuildAgent (st1.agents.length + 1) (tenthManModelPick st1)] ∧
      stF.transcript.phase = Phase.tenthManPhase ∧
      stF.transcript.rounds = st1.transcript.rounds + 3 ∧
      stF.transcript.turns = st1.transcript.turns ++ ts2 ∧
      ts2.map turnProj =
        roundsProj (st1.agents ++
          [tenthmanBuildAgent (st1.agents.length + 1) (tenthManModelPick st1)])
          (st1.transcript.rounds + 1) 3 := by
  obtain ⟨ts2, hp2, hproj2⟩ := phase2Rounds_ok w hllm hnc tenthManRounds
    (st1.transcript.rounds + 1) (tenthManAppend st1 c) ctr1 (by simp) (by omega)
  refine ⟨setRounds (addTurns (tenthManAppend st1 c) ts2) (st1.transcript.rounds + 1 +
    tenthManRounds - 1), ts2, ?_, ?_, ?_, ?_, ?_, ?_⟩
  · simp only [engineRunPost, if_pos hcond]
    rw [tenthManAppend_rounds, hp2]
    show finalJudge w
      (setRounds (addTurns (tenthManAppend st1 c) ts2)
        (st1.transcript.rounds + 1 + tenthManRounds - 1))
      (bumpCtr ctr1 ((tenthManAppend st1 c).agents.length * tenthManRounds) 0
        ((tenthManAppend st1 c).agents.length * tenthManRounds)) = _
    rw [finalJudge_ok w verdicts hj, bumpCtr_bumpCtr]
    have hjc : (bumpCtr ctr1 ((tenthManAppend st1 c).agents.length * tenthManRounds) 0
        ((tenthManAppend st1 c).agents.length * tenthManRounds)).judgeCalls =
        ctr1.judgeCalls := by simp
    rw [hjc]
    have hL : (tenthManAppend st1 c).agents.length * tenthManRounds + 0 =
        (st1.agents.length + 1) * 3 := by
      simp [tenthManRounds]
    rw [hL]
  · simp
  · simp
  · simp [tenthManRounds]
  · simp
  · rw [hproj2]
    simp [tenthManRounds]

theorem engineRunPost_noTrig (w : EngineW) (st1 : EngineState) (ctr1 : Counters)
    (c : ConsensusResult) (hc : ¬(c.detected = true ∧ 7 ≤ c.score)) :
    engineRunPost w st1 ctr1 (some c) = (st1, ctr1, .ok ⟨st1.transcript, some c⟩) := by
  simp only [engineRunPost, if_neg hc]

@[simp] theorem tenthManModelPick_setRounds (st : EngineState) (r : Nat) :
    tenthManModelPick (setRounds st r) = tenthManModelPick st := by
  simp [tenthManModelPick]

@[simp] theorem tenthManModelPick_addTurns (st : EngineState) (ts : List Turn) :
    tenthManModelPick (addTurns st ts) = tenthManModelPick st := by
  simp [tenthManModelPick]

/-- `Engine.Run` under the success frame when no phase-1 verdict triggers:
the run stays in free debate for all `maxRounds` rounds, one turn per
agent per round in order, and the result carries the last verdict. -/
theorem engineRun_noTrig (w : EngineW) (verdicts : Nat → ConsensusResult)
    (topic : GoStr) (agents : List Agent) (minR maxR : Nat) (tm : GoStr)
    (hllm : ∀ k m ms, ∃ r, w.llm k m ms = Except.ok r)
    (hnc : ∀ k, w.cancelled k = false)
    (hj : ∀ k t, w.judge k t = Except.ok (verdicts k))
    (h1 : 1 ≤ minR) (h2 : minR ≤ maxR)
    (hnotrig : ∀ k, k < maxR + 1 - minR → triggB (verdicts k) = false) :
    ∃ stF ctrF ts,
      engineRun w (setTenthManModel (newEngine topic agents minR maxR) tm) =
        (stF, ctrF, .ok ⟨stF.transcript, some (verdicts (maxR - minR))⟩) ∧
      stF.transcript.phase = Phase.freeDebate ∧
      stF.agents = agents ∧
      stF.transcript.rounds = maxR ∧
      stF.transcript.turns = ts ∧
      ts.map turnProj = roundsProj agents 1 maxR ∧
      ctrF.judgeCalls = maxR + 1 - minR ∧
      ctrF.llmCalls = agents.length * maxR := by
  set st0 : EngineState := setTenthManModel (newEngine topic agents minR maxR) tm with hst0
  have hfields : st0.minRounds = minR ∧ st0.maxRounds = maxR ∧ st0.agents = agents ∧
      st0.transcript.rounds = 0 ∧ st0.transcript.phase = Phase.freeDebate ∧
      st0.transcript.turns = [] := by
    refine ⟨rfl, rfl, rfl, rfl, rfl, rfl⟩
  obtain ⟨hmin0, hmax0, hag0, hr0, hp0, ht0⟩ := hfields
  have hnone : firstTrigAux verdicts 0 (maxR + 1 - minR) = none := by
    cases hft : firstTrigAux verdicts 0 (maxR + 1 - minR) with
    | none => rfl
    | some k =>
      obtain ⟨_, hk2, hk3, _⟩ := firstTrigAux_some verdicts _ 0 k hft
      rw [hnotrig k (by omega)] at hk3
      exact absurd hk3 (by simp)
  obtain ⟨ts, hp1, hproj⟩ := phase1_ok w verdicts hllm hnc hj maxR 1 st0 ctrZero none
    (by rw [hmin0]; exact h1) (by rw [hmin0, hmax0]; exact h2)
    (by rw [hmax0]; omega) (by rw [hr0]) (by rw [hmin0]; simp [ctrZero]; omega)
    (Or.inl ⟨by rw [hmin0]; exact h1, rfl⟩)
    (by intro k hk; rw [hmin0] at hk; omega)
  rw [hmin0, hmax0] at hp1 hproj
  have hE : p1EndRound verdicts minR maxR = maxR := by
    simp [p1EndRound, hnone]
  rw [hE] at hp1 hproj
  have hcnot : ¬((verdicts (maxR - minR)).detected = true ∧ 7 ≤ (verdicts (maxR - minR)).score) := by
    intro hcon
    have := (triggB_iff _).mpr hcon
    rw [hnotrig (maxR - minR) (by omega)] at this
    exact absurd this (by simp)
  refine ⟨setRounds (addTurns st0 ts) maxR,
    ⟨ctrZero.llmCalls + st0.agents.length * (maxR + 1 - 1), maxR + 1 - minR,
      ctrZero.checks + st0.agents.length * (maxR + 1 - 1)⟩, ts, ?_, ?_, ?_, ?_, ?_, ?_, ?_, ?_⟩
  · unfold engineRun
    rw [show st0.maxRounds = maxR from hmax0, hp1]
    show engineRunPost w (setRounds (addTurns st0 ts) maxR)
      (⟨ctrZero.llmCalls + st0.agents.length * (maxR + 1 - 1), maxR + 1 - minR,
        ctrZero.checks + st0.agents.length * (maxR + 1 - 1)⟩ : Counters)
      (some (verdicts (maxR - minR))) = _
    rw [engineRunPost_noTrig w _ _ _ hcnot]
  · simp [hp0]
  · simp [hag0]
  · simp
  · simp [ht0]
  · rw [hproj, hag0, Nat.add_sub_cancel]
  · rfl
  · show ctrZero.llmCalls + st0.agents.length * (maxR + 1 - 1) = agents.length * maxR
    rw [hag0]
    simp [ctrZero]

/-- `Engine.Run` under the success frame when the first triggering verdict
has index `k` (so phase 1 stops at round `minR + k`): the tenth-man agent
is appended, 3 more rounds run with the enlarged set, and the one final
judge verdict (call index `k + 1`) replaces the phase-1 verdict. -/
theorem engineRun_trig (w : EngineW) (verdicts : Nat → ConsensusResult)
    (topic : GoStr) (agents : List Agent) (minR maxR k : Nat) (tm : GoStr)
    (hllm : ∀ k m ms, ∃ r, w.llm k m ms = Except.ok r)
    (hnc : ∀ k, w.cancelled k = false)
    (hj : ∀ k t, w.judge k t = Except.ok (verdicts k))
    (h1 : 1 ≤ minR) (h2 : minR ≤ maxR)
    (hft : firstTrigAux verdicts 0 (maxR + 1 - minR) = some k) :
    ∃ stF ctrF ts tmAg,
      engineRun w (setTenthManModel (newEngine topic agents minR maxR) tm) =
        (stF, ctrF, .ok ⟨stF.transcript, some (verdicts (k + 1))⟩) ∧
      tmAg = tenthmanBuildAgent (agents.length + 1)
        (tenthManModelPick (setTenthManModel (newEngine topic agents minR maxR) tm)) ∧
      stF.agents = agents ++ [tmAg] ∧
      stF.transcript.phase = Phase.tenthManPhase ∧
      stF.transcript.rounds = minR + k + 3 ∧
      stF.transcript.turns = ts ∧
      ts.map turnProj = roundsProj agents 1 (minR + k) ++
        roundsProj (agents ++ [tmAg]) (minR + k + 1) 3 ∧
      ctrF.judgeCalls = k + 2 ∧
      ctrF.llmCalls = agents.length * (minR + k) + (agents.length + 1) * 3 := by
  set st0 : EngineState := setTenthManModel (newEngine topic agents minR maxR) tm with hst0
  have hmin0 : st0.minRounds = minR := rfl
  have hmax0 : st0.maxRounds = maxR := rfl
  have hag0 : st0.agents = agents := rfl
  have hr0 : st0.transcript.rounds = 0 := rfl
  have ht0 : st0.transcript.turns = [] := rfl
  obtain ⟨hk1, hk2, hk3, hk4⟩ := firstTrigAux_some verdicts _ 0 k hft
  obtain ⟨ts1, hp1, hproj1⟩ := phase1_ok w verdicts hllm hnc hj maxR 1 st0 ctrZero none
    (by rw [hmin0]; exact h1) (by rw [hmin0, hmax0]; exact h2)
    (by rw [hmax0]; omega) (by rw [hr0]) (by rw [hmin0]; simp [ctrZero]; omega)
    (Or.inl ⟨by rw [hmin0]; exact h1, rfl⟩)
    (by intro j hj2; rw [hmin0] at hj2; omega)
  rw [hmin0, hmax0] at hp1 hproj1
  have hE : p1EndRound verdicts minR maxR = minR + k := by
    simp [p1EndRound, hft]
  rw [hE] at hp1 hproj1
  have hidx : minR + k - minR = k := by omega
  rw [hidx] at hp1
  have hcond : (verdicts k).detected = true ∧ 7 ≤ (verdicts k).score := (triggB_iff _).mp hk3
  obtain ⟨stF, ts2, hpost, hagF, hphF, hrF, htF, hprojF⟩ := engineRunPost_trig w verdicts
    hllm hnc hj (setRounds (addTurns st0 ts1) (minR + k))
    ⟨ctrZero.llmCalls + st0.agents.length * (minR + k + 1 - 1), minR + k + 1 - minR,
      ctrZero.checks + st0.agents.length * (minR + k + 1 - 1)⟩
    (verdicts k) hcond
  refine ⟨stF, bumpCtr
      ⟨ctrZero.llmCalls + st0.agents.length * (minR + k + 1 - 1), minR + k + 1 - minR,
        ctrZero.checks + st0.agents.length * (minR + k + 1 - 1)⟩
      (((setRounds (addTurns st0 ts1) (minR + k)).agents.length + 1) * 3) 1
      (((setRounds (addTurns st0 ts1) (minR + k)).agents.length + 1) * 3),
    ts1 ++ ts2, tenthmanBuildAgent (agents.length + 1) (tenthManModelPick st0),
    ?_, rfl, ?_, hphF, ?_, ?_, ?_, ?_, ?_⟩
  · unfold engineRun
    rw [show st0.maxRounds = maxR from hmax0, hp1]
    show engineRunPost w (setRounds (addTurns st0 ts1) (minR + k))
      (⟨ctrZero.llmCalls + st0.agents.length * (minR + k + 1 - 1), minR + k + 1 - minR,
        ctrZero.checks + st0.agents.length * (minR + k + 1 - 1)⟩ : Counters)
      (some (verdicts k)) = _
    rw [hpost]
    have hjc : (⟨ctrZero.llmCalls + st0.agents.length * (minR + k + 1 - 1), minR + k + 1 - minR,
        ctrZero.checks + st0.agents.length * (minR + k + 1 - 1)⟩ : Counters).judgeCalls = k + 1 := by
      show minR + k + 1 - minR = k + 1
      omega
    rw [hjc]
  · rw [hagF]
    simp [hag0]
  · rw [hrF]
    simp
  · rw [htF]
    simp [ht0]
  · rw [List.map_append, hproj1, hprojF]
    simp [hag0]
  · show minR + k + 1 - minR + 1 = k + 2
    omega
  · show ctrZero.llmCalls + st0.agents.length * (minR + k + 1 - 1) +
      ((setRounds (addTurns st0 ts1) (minR + k)).agents.length + 1) * 3 =
      agents.length * (minR + k) + (agents.length + 1) * 3
    simp [hag0, ctrZero]

theorem runRound_fields (w : EngineW) (st : EngineState) (ctr : Counters) (round : Nat) :
    (runRound w st ctr round).1.minRounds = st.minRounds ∧
    (runRound w st ctr round).1.maxRounds = st.maxRounds ∧
    (runRound w st ctr round).1.agents = st.agents := by
  obtain ⟨ts, hts, _⟩ := runAgents_change w round st.agents st ctr
  unfold runRound
  rcases hra : runAgents w round st.agents st ctr with ⟨st1, ctr1, err⟩
  rw [hra] at hts
  cases err with
  | none =>
    simp at hts
    simp [hts]
  | some e =>
    simp at hts
    simp [hts]

/-- If phase 1 finishes without error having started with a verdict in
hand or before its first checkpoint, it finishes with a verdict in hand:
the judge has been consulted at least once. -/
theorem phase1_consSome (w : EngineW) :
    ∀ left round st ctr cons st1 ctr1 cons1,
    phase1 w left round st ctr cons = (st1, ctr1, cons1, none) →
    round + left = st.maxRounds + 1 →
    st.minRounds ≤ st.maxRounds →
    (cons ≠ none ∨ round ≤ st.minRounds) →
    cons1 ≠ none := by
  intro left
  induction left with
  | zero =>
    intro round st ctr cons st1 ctr1 cons1 heq h3 h2 hd
    simp only [phase1] at heq
    have hcons : cons = cons1 := congrArg (fun x => x.2.2.1) heq
    rcases hd with hne | hle
    · rw [← hcons]
      exact hne
    · omega
  | succ n ih =>
    intro round st ctr cons st1 ctr1 cons1 heq h3 h2 hd
    simp only [phase1] at heq
    obtain ⟨hm1, hm2, -⟩ := runRound_fields w st ctr round
    rcases hr : runRound w st ctr round with ⟨sta, ctra, err⟩
    rw [hr] at heq
    have hm1a : sta.minRounds = st.minRounds := by rw [hr] at hm1; exact hm1
    have hm2a : sta.maxRounds = st.maxRounds := by rw [hr] at hm2; exact hm2
    cases err with
    | some e => exact absurd (congrArg (fun x => x.2.2.2) heq) (by simp)
    | none =>
      by_cases hmin : sta.minRounds ≤ round
      · have heq1 : (if sta.minRounds ≤ round then
            match w.judge ctra.judgeCalls sta.transcript with
            | Except.error e =>
              (sta, bumpCtr ctra 0 1 0, cons,
                some (GoErr.wrap (gs ("debate: consensus evaluation")) e))
            | Except.ok c =>
              if c.detected = true ∧ 7 ≤ c.score then (sta, bumpCtr ctra 0 1 0, some c, none)
              else phase1 w n (round + 1) sta (bumpCtr ctra 0 1 0) (some c)
          else phase1 w n (round + 1) sta ctra cons) = (st1, ctr1, cons1, none) := heq
        rw [if_pos hmin] at heq1
        rcases hjj : w.judge ctra.judgeCalls sta.transcript with e | c
        · rw [hjj] at heq1
          exact absurd (congrArg (fun x => x.2.2.2) heq1) (by simp)
        · rw [hjj] at heq1
          have heq2 : (if c.detected = true ∧ 7 ≤ c.score then
              (sta, bumpCtr ctra 0 1 0, some c, none)
              else phase1 w n (round + 1) sta (bumpCtr ctra 0 1 0) (some c)) =
              (st1, ctr1, cons1, none) := heq1
          by_cases htr : c.detected = true ∧ 7 ≤ c.score
          · rw [if_pos htr] at heq2
            have hcons : some c = cons1 := congrArg (fun x => x.2.2.1) heq2
            rw [← hcons]
            simp
          · rw [if_neg htr] at heq2
            exact ih (round + 1) sta (bumpCtr ctra 0 1 0) (some c) st1 ctr1 cons1 heq2
              (by rw [hm2a]; omega) (by rw [hm1a, hm2a]; exact h2)
              (Or.inl (by simp))
      · have heq1 : (if sta.minRounds ≤ round then
            match w.judge ctra.judgeCalls sta.transcript with
            | Except.error e =>
              (sta, bumpCtr ctra 0 1 0, cons,
                some (GoErr.wrap (gs ("debate: consensus evaluation")) e))
            | Except.ok c =>
              if c.detected = true ∧ 7 ≤ c.score then (sta, bumpCtr ctra 0 1 0, some c, none)
              else phase1 w n (round + 1) sta (bumpCtr ctra 0 1 0) (some c)
          else phase1 w n (round + 1) sta ctra cons) = (st1, ctr1, cons1, none) := heq
        rw [if_neg hmin] at heq1
        exact ih (round + 1) sta ctra cons st1 ctr1 cons1 heq1
          (by rw [hm2a]; omega) (by rw [hm1a, hm2a]; exact h2)
          (Or.inr (by rw [hm1a]; omega))

theorem engineRunPost_consSome (w : EngineW) (st1 : EngineState) (ctr1 : Counters)
    (cons : Option ConsensusResult) (stF : EngineState) (ctrF : Counters) (res : RunResult)
    (h : engineRunPost w st1 ctr1 cons = (stF, ctrF, .ok res)) (hne : cons ≠ none) :
    ∃ c, res.consensus = some c := by
  cases cons with
  | none => exact absurd rfl hne
  | some c =>
    simp only [engineRunPost] at h
    by_cases htr : c.detected = true ∧ 7 ≤ c.score
    · rw [if_pos htr] at h
      rcases hp2 : phase2Rounds w tenthManRounds ((tenthManAppend st1 c).transcript.rounds + 1)
          (tenthManAppend st1 c) ctr1 with ⟨st4, ctr4, err⟩
      rw [hp2] at h
      cases err with
      | some e => exact absurd (congrArg (fun x => x.2.2) h) (by simp)
      | none =>
        simp only [] at h
        unfold finalJudge at h
        rcases hjj : w.judge ctr4.judgeCalls st4.transcript with e | cF
        · rw [hjj] at h
          exact absurd (congrArg (fun x => x.2.2) h) (by simp)
        · rw [hjj] at h
          have hres : Except.ok (⟨st4.transcript, some cF⟩ : RunResult) = Except.ok res :=
            congrArg (fun x => x.2.2) h
          have hres2 : (⟨st4.transcript, some cF⟩ : RunResult) = res := by
            cases hres
            rfl
          exact ⟨cF, by rw [← hres2]⟩
    · rw [if_neg htr] at h
      have hres : Except.ok (⟨st1.transcript, some c⟩ : RunResult) = Except.ok res :=
        congrArg (fun x => x.2.2) h
      have hres2 : (⟨st1.transcript, some c⟩ : RunResult) = res := by
        cases hres
        rfl
      exact ⟨c, by rw [← hres2]⟩

/-- C1: under the success frame (no cancellation, every LLM call and
judge call succeeds, the judge's k-th verdict being `verdicts k`,
computed at round `minRounds + k`), for every run with
1 ≤ minRounds ≤ maxRounds the tenth-man (contrarian) phase is entered iff
some computed verdict has convergence detected with strength at least 7;
on that trigger exactly one new tenth-man participant is appended to the
agent set and every original agent remains; without it the agent set is
unchanged. -/
theorem c1_contrarian_phase_iff_trigger (w : EngineW) (verdicts : Nat → ConsensusResult)
    (topic : GoStr) (agents : List Agent) (minR maxR : Nat) (tm : GoStr)
    (hllm : ∀ k m ms, ∃ r, w.llm k m ms = Except.ok r)
    (hnc : ∀ k, w.cancelled k = false)
    (hj : ∀ k t, w.judge k t = Except.ok (verdicts k))
    (h1 : 1 ≤ minR) (h2 : minR ≤ maxR) :
    ((engineRun w (setTenthManModel (newEngine topic agents minR maxR) tm)).1.transcript.phase =
        Phase.tenthManPhase ↔
      ∃ k, k ≤ maxR - minR ∧ (verdicts k).detected = true ∧ 7 ≤ (verdicts k).score) ∧
    ((engineRun w (setTenthManModel (newEngine topic agents minR maxR) tm)).1.transcript.phase =
        Phase.tenthManPhase →
      ∃ tmAg, tmAg.role = gs ("tenth-man") ∧
        (engineRun w (setTenthManModel (newEngine topic agents minR maxR) tm)).1.agents =
          agents ++ [tmAg]) ∧
    ((engineRun w (setTenthManModel (newEngine topic agents minR maxR) tm)).1.transcript.phase =
        Phase.freeDebate →
      (engineRun w (setTenthManModel (newEngine topic agents minR maxR) tm)).1.agents = agents) := by
  rcases hft : firstTrigAux verdicts 0 (maxR + 1 - minR) with _ | k
  · have hnotrig : ∀ j, j < maxR + 1 - minR → triggB (verdicts j) = false := by
      intro j hj2
      exact firstTrigAux_none verdicts _ 0 hft j (Nat.zero_le _) (by omega)
    obtain ⟨stF, ctrF, ts, hrun, hph, hag, -, -, -, -, -⟩ :=
      engineRun_noTrig w verdicts topic agents minR maxR tm hllm hnc hj h1 h2 hnotrig
    rw [hrun]
    refine ⟨?_, ?_, ?_⟩
    · constructor
      · intro hcon
        rw [hph] at hcon
        exact absurd hcon (by simp)
      · rintro ⟨j, hj1, hj2, hj3⟩
        have := hnotrig j (by omega)
        rw [(triggB_iff _).mpr ⟨hj2, hj3⟩] at this
        exact absurd this (by simp)
    · intro hcon
      rw [hph] at hcon
      exact absurd hcon (by simp)
    · intro _
      exact hag
  · obtain ⟨stF, ctrF, ts, tmAg, hrun, htmAg, hag, hph, -, -, -, -, -⟩ :=
      engineRun_trig w verdicts topic agents minR maxR k tm hllm hnc hj h1 h2 hft
    obtain ⟨-, hk2, hk3, -⟩ := firstTrigAux_some verdicts _ 0 k hft
    rw [hrun]
    refine ⟨?_, ?_, ?_⟩
    · constructor
      · intro _
        exact ⟨k, by omega, (triggB_iff _).mp hk3⟩
      · intro _
        exact hph
    · intro _
      refine ⟨tmAg, ?_, hag⟩
      rw [htmAg]
      rfl
    · intro hcon
      rw [hph] at hcon
      exact absurd hcon (by simp)

/-- C2: under the success frame, when the first triggering verdict has
index `k` (phase-1 boundary round `minR + k`), exactly 3 additional
rounds are executed by the enlarged set of original-count-plus-one
agents, with round numbers continuing from the boundary; afterwards the
judge is invoked exactly once more (call index `k + 1`, after the `k + 1`
phase-1 calls) and that verdict is the one stored in the RunResult,
replacing the phase-1 verdict. -/
theorem c2_tenthman_three_rounds (w : EngineW) (verdicts : Nat → ConsensusResult)
    (topic : GoStr) (agents : List Agent) (minR maxR k : Nat) (tm : GoStr)
    (hllm : ∀ k m ms, ∃ r, w.llm k m ms = Except.ok r)
    (hnc : ∀ k, w.cancelled k = false)
    (hj : ∀ k t, w.judge k t = Except.ok (verdicts k))
    (h1 : 1 ≤ minR) (h2 : minR ≤ maxR)
    (hft : firstTrigAux verdicts 0 (maxR + 1 - minR) = some k) :
    ∃ stF ctrF ts tmAg res,
      engineRun w (setTenthManModel (newEngine topic agents minR maxR) tm) =
        (stF, ctrF, Except.ok res) ∧
      stF.transcript.rounds = (minR + k) + 3 ∧
      (agents ++ [tmAg]).length = agents.length + 1 ∧
      stF.transcript.turns = ts ∧
      ts.map turnProj = roundsProj agents 1 (minR + k) ++
        roundsProj (agents ++ [tmAg]) (minR + k + 1) 3 ∧
      ctrF.judgeCalls = (k + 1) + 1 ∧
      res.transcript = stF.transcript ∧
      res.consensus = some (verdicts (k + 1)) := by
  obtain ⟨stF, ctrF, ts, tmAg, hrun, htmAg, hag, hph, hrounds, hturns, hproj, hjc, hllmc⟩ :=
    engineRun_trig w verdicts topic agents minR maxR k tm hllm hnc hj h1 h2 hft
  exact ⟨stF, ctrF, ts, tmAg, ⟨stF.transcript, some (verdicts (k + 1))⟩, hrun, hrounds,
    by simp, hturns, hproj, by omega, rfl, rfl⟩

/-- C3: under the success frame, if no judge verdict ever has convergence
detected with strength at least 7, the run stays in free debate for its
whole duration and the final transcript holds exactly
maxRounds × participantCount turns — one turn per participant per round,
in the fixed participant order. -/
theorem c3_no_convergence_full_run (w : EngineW) (verdicts : Nat → ConsensusResult)
    (topic : GoStr) (agents : List Agent) (minR maxR : Nat) (tm : GoStr)
    (hllm : ∀ k m ms, ∃ r, w.llm k m ms = Except.ok r)
    (hnc : ∀ k, w.cancelled k = false)
    (hj : ∀ k t, w.judge k t = Except.ok (verdicts k))
    (h1 : 1 ≤ minR) (h2 : minR ≤ maxR)
    (hnotrig : ∀ j, j ≤ maxR - minR →
      ¬((verdicts j).detected = true ∧ 7 ≤ (verdicts j).score)) :
    ∃ stF ctrF res,
      engineRun w (setTenthManModel (newEngine topic agents minR maxR) tm) =
        (stF, ctrF, Except.ok res) ∧
      stF.transcript.phase = Phase.freeDebate ∧
      stF.transcript.turns.length = maxR * agents.length ∧
      stF.transcript.turns.map turnProj = roundsProj agents 1 maxR := by
  have hnb : ∀ j, j < maxR + 1 - minR → triggB (verdicts j) = false := by
    intro j hj2
    rcases Bool.eq_false_or_eq_true (triggB (verdicts j)) with h | h
    · exact absurd ((triggB_iff _).mp h) (hnotrig j (by omega))
    · exact h
  obtain ⟨stF, ctrF, ts, hrun, hph, -, -, hturns, hproj, -, -⟩ :=
    engineRun_noTrig w verdicts topic agents minR maxR tm hllm hnc hj h1 h2 hnb
  refine ⟨stF, ctrF, ⟨stF.transcript, some (verdicts (maxR - minR))⟩, hrun, hph, ?_, ?_⟩
  · rw [hturns]
    have hlen : (ts.map turnProj).length = (roundsProj agents 1 maxR).length := by rw [hproj]
    rw [List.length_map] at hlen
    rw [hlen, roundsProj_length]
  · rw [hturns]
    exact hproj

/-- C8: for every run with 1 ≤ minRounds ≤ maxRounds that returns
successfully, the RunResult carries a non-null verdict (possibly a
non-convergent one): the judge was consulted at least once before phase 1
could end. -/
theorem c8_success_has_verdict (w : EngineW) (topic : GoStr) (agents : List Agent)
    (minR maxR : Nat) (tm : GoStr) (stF : EngineState) (ctrF : Counters) (res : RunResult)
    (h1 : 1 ≤ minR) (h2 : minR ≤ maxR)
    (hrun : engineRun w (setTenthManModel (newEngine topic agents minR maxR) tm) =
      (stF, ctrF, Except.ok res)) :
    ∃ c, res.consensus = some c := by
  unfold engineRun at hrun
  rcases hp : phase1 w (setTenthManModel (newEngine topic agents minR maxR) tm).maxRounds 1
      (setTenthManModel (newEngine topic agents minR maxR) tm) ctrZero none with
    ⟨st1, ctr1, cons, err⟩
  rw [hp] at hrun
  cases err with
  | some e => exact absurd (congrArg (fun x => x.2.2) hrun) (by simp)
  | none =>
    have hcons := phase1_consSome w
      (setTenthManModel (newEngine topic agents minR maxR) tm).maxRounds 1
      (setTenthManModel (newEngine topic agents minR maxR) tm) ctrZero none st1 ctr1 cons hp
      (by omega) h2 (Or.inr h1)
    exact engineRunPost_consSome w st1 ctr1 cons stF ctrF res hrun hcons

/-- C10: the transcript's rounds-completed counter is set only once every
agent of the round has produced a turn: a successful `runRound` sets it
to the round just played, while after any mid-round failure it still
holds the previous value even though the turns list may already hold
turns of round counter + 1. -/
theorem c10_rounds_counter_on_failure (w : EngineW) (st : EngineState) (ctr : Counters)
    (round : Nat) (hprev : st.transcript.rounds + 1 = round) :
    ((runRound w st ctr round).2.2 = none →
      (runRound w st ctr round).1.transcript.rounds = round) ∧
    (∀ e, (runRound w st ctr round).2.2 = some e →
      (runRound w st ctr round).1.transcript.rounds = st.transcript.rounds ∧
      ∃ ts, (runRound w st ctr round).1.transcript.turns = st.transcript.turns ++ ts ∧
        ∀ t ∈ ts, t.round = st.transcript.rounds + 1) := by
  constructor
  · intro hok
    unfold runRound at hok ⊢
    rcases hra : runAgents w round st.agents st ctr with ⟨st1, ctr1, err⟩
    cases err with
    | none => rfl
    | some e =>
      rw [hra] at hok
      exact absurd hok (by simp)
  · intro e herr
    obtain ⟨ts, hts, hr⟩ := runRound_err w st ctr round e herr
    rw [hts]
    refine ⟨by rw [addTurns_rounds], ts, by rw [addTurns_turns], ?_⟩
    intro t ht
    rw [hprev]
    exact hr t ht

/-- C9: cancellation is checked immediately before each turn's LLM call
(and before each judge attempt).  If the signal is already observed at
the very first check, the run aborts with zero turns recorded and no LLM
or judge call; if it is observed before the `j`-th turn of a round, the
`j` turns completed before the signal stay in the transcript while the
round returns a cancellation failure and makes no further LLM call; a
judge evaluation whose first check observes cancellation aborts with a
wrapped cancellation error and zero calls. -/
theorem c9_cancellation_aborts :
    (∀ (w : EngineW) (topic : GoStr) (a : Agent) (rest : List Agent) (minR maxR : Nat)
      (tm : GoStr), 1 ≤ maxR → w.cancelled 0 = true →
      ∃ stF ctrF, engineRun w (setTenthManModel (newEngine topic (a :: rest) minR maxR) tm) =
          (stF, ctrF, .error (.wrap (gs ("debate")) .canceled)) ∧
        stF.transcript.turns = [] ∧ ctrF.llmCalls = 0 ∧ ctrF.judgeCalls = 0) ∧
    (∀ (w : EngineW) (st : EngineState) (ctr : Counters) (round j : Nat),
      (∀ k m ms, ∃ r, w.llm k m ms = Except.ok r) →
      j < st.agents.length →
      (∀ t, t < j → w.cancelled (ctr.checks + t) = false) →
      w.cancelled (ctr.checks + j) = true →
      ∃ ts, runRound w st ctr round =
        (addTurns st ts, bumpCtr ctr j 0 (j + 1), some (.wrap (gs ("debate")) .canceled)) ∧
        ts.map turnProj = (st.agents.take j).map (fun ag => (round, ag))) ∧
    (∀ (llm : Nat → List Message → Except GoErr ChatResponse) (cancelled : Nat → Bool)
      (tr : Transcript), cancelled 0 = true →
      judgeEvaluate llm cancelled tr =
        (some (.error (.wrap (gs ("consensus")) .canceled)), 0)) := by
  refine ⟨?_, ?_, ?_⟩
  · intro w topic a rest minR maxR tm hmax hc0
    cases maxR with
    | zero => omega
    | succ m =>
      refine ⟨setTenthManModel (newEngine topic (a :: rest) minR (m + 1)) tm,
        ⟨0, 0, 1⟩, ?_, rfl, rfl, rfl⟩
      have hra : runAgents w 1 (a :: rest)
          (setTenthManModel (newEngine topic (a :: rest) minR (m + 1)) tm) ctrZero =
          (setTenthManModel (newEngine topic (a :: rest) minR (m + 1)) tm, ⟨0, 0, 1⟩,
            some (.wrap (gs ("debate")) .canceled)) := by
        simp [runAgents, hc0, ctrZero]
      have hrr : runRound w (setTenthManModel (newEngine topic (a :: rest) minR (m + 1)) tm)
          ctrZero 1 =
          (setTenthManModel (newEngine topic (a :: rest) minR (m + 1)) tm, ⟨0, 0, 1⟩,
            some (.wrap (gs ("debate")) .canceled)) := by
        unfold runRound
        rw [show (setTenthManModel (newEngine topic (a :: rest) minR (m + 1)) tm).agents =
          a :: rest from rfl, hra]
      have hp1 : phase1 w (m + 1) 1
          (setTenthManModel (newEngine topic (a :: rest) minR (m + 1)) tm) ctrZero none =
          (setTenthManModel (newEngine topic (a :: rest) minR (m + 1)) tm, ⟨0, 0, 1⟩, none,
            some (.wrap (gs ("debate")) .canceled)) := by
        simp only [phase1]
        rw [hrr]
      unfold engineRun
      rw [show (setTenthManModel (newEngine topic (a :: rest) minR (m + 1)) tm).maxRounds =
        m + 1 from rfl, hp1]
  · intro w st ctr round j hllm hj hbefore hat
    exact runRound_cancelAt w st ctr round j hllm hj hbefore hat
  · intro llm cancelled tr hc0
    simp [judgeEvaluate, maxJudgeRetries, judgeEvalAux, hc0]

theorem c1_contrarian_phase_iff_trigger_witness :
    (1 : Nat) ≤ 1 ∧ (1 : Nat) ≤ 2 ∧
    (engineRun engWYes (setTenthManModel (newEngine (gs ("t")) wagentsW 1 2)
      (gs ("tmm")))).1.transcript.phase = Phase.tenthManPhase := by
  refine ⟨Nat.le_refl 1, by omega, ?_⟩
  have h := c1_contrarian_phase_iff_trigger engWYes (fun _ => vYesW) (gs ("t")) wagentsW 1 2
    (gs ("tmm")) (fun k m ms => ⟨okRespW, rfl⟩) (fun k => rfl) (fun k t => rfl)
    (Nat.le_refl 1) (by omega)
  exact h.1.mpr ⟨0, by omega, rfl, by decide⟩

theorem c2_tenthman_three_rounds_witness :
    firstTrigAux (fun _ => vYesW) 0 (2 + 1 - 1) = some 0 ∧
    (engineRun engWYes (setTenthManModel (newEngine (gs ("t")) wagentsW 1 2)
      (gs ("tmm")))).1.transcript.rounds = 1 + 0 + 3 := by
  refine ⟨by decide, ?_⟩
  obtain ⟨stF, ctrF, ts, tmAg, res, hrun, hrounds, -, -, -, -, -, -⟩ :=
    c2_tenthman_three_rounds engWYes (fun _ => vYesW) (gs ("t")) wagentsW 1 2 0 (gs ("tmm"))
      (fun k m ms => ⟨okRespW, rfl⟩) (fun k => rfl) (fun k t => rfl)
      (Nat.le_refl 1) (by omega) (by decide)
  rw [hrun]
  exact hrounds

theorem c3_no_convergence_full_run_witness :
    (1 : Nat) ≤ 1 ∧ (1 : Nat) ≤ 2 ∧
    (engineRun engWNo (setTenthManModel (newEngine (gs ("t")) wagentsW 1 2)
      (gs ("tmm")))).1.transcript.turns.length = 2 * 3 := by
  refine ⟨Nat.le_refl 1, by omega, ?_⟩
  obtain ⟨stF, ctrF, res, hrun, -, hlen, -⟩ :=
    c3_no_convergence_full_run engWNo (fun _ => vNoW) (gs ("t")) wagentsW 1 2 (gs ("tmm"))
      (fun k m ms => ⟨okRespW, rfl⟩) (fun k => rfl) (fun k t => rfl)
      (Nat.le_refl 1) (by omega)
    (fun j _ => by show ¬(vNoW.detected = true ∧ 7 ≤ vNoW.score); decide)
  rw [hrun]
  exact hlen

theorem c8_success_has_verdict_witness :
    (1 : Nat) ≤ 1 ∧
    ((⟨(engineRun engWNo (setTenthManModel (newEngine (gs ("t")) wagentsW 1 1)
      (gs ("tmm")))).1.transcript, some vNoW⟩ : RunResult)).consensus.isSome = true := by
  refine ⟨Nat.le_refl 1, ?_⟩
  have hok : (engineRun engWNo (setTenthManModel (newEngine (gs ("t")) wagentsW 1 1)
      (gs ("tmm")))).2.2 =
      Except.ok (⟨(engineRun engWNo (setTenthManModel (newEngine (gs ("t")) wagentsW 1 1)
        (gs ("tmm")))).1.transcript, some vNoW⟩ : RunResult) := by rfl
  have hsplit : engineRun engWNo (setTenthManModel (newEngine (gs ("t")) wagentsW 1 1)
      (gs ("tmm"))) =
      ((engineRun engWNo (setTenthManModel (newEngine (gs ("t")) wagentsW 1 1)
        (gs ("tmm")))).1,
       (engineRun engWNo (setTenthManModel (newEngine (gs ("t")) wagentsW 1 1)
        (gs ("tmm")))).2.1,
       Except.ok (⟨(engineRun engWNo (setTenthManModel (newEngine (gs ("t")) wagentsW 1 1)
        (gs ("tmm")))).1.transcript, some vNoW⟩ : RunResult)) := by
    rw [← hok]
  obtain ⟨c, hc⟩ := c8_success_has_verdict engWNo (gs ("t")) wagentsW 1 1 (gs ("tmm")) _ _ _
    (Nat.le_refl 1) (Nat.le_refl 1) hsplit
  rw [hc]
  rfl

theorem c9_cancellation_aborts_witness :
    engWCancel.cancelled 0 = true ∧
    (1 : Nat) ≤ 2 ∧
    (engineRun engWCancel (setTenthManModel (newEngine (gs ("t")) wagentsW 1 2)
        (gs ("tmm")))).2.2 = .error (.wrap (gs ("debate")) .canceled) ∧
    (engineRun engWCancel (setTenthManModel (newEngine (gs ("t")) wagentsW 1 2)
        (gs ("tmm")))).1.transcript.turns = ([] : List Turn) ∧
    (engineRun engWCancel (setTenthManModel (newEngine (gs ("t")) wagentsW 1 2)
        (gs ("tmm")))).2.1.llmCalls = 0 := by
  refine ⟨rfl, by omega, ?_⟩
  obtain ⟨stF, ctrF, hrun, hturns, hl, hj⟩ := c9_cancellation_aborts.1 engWCancel (gs ("t"))
    ⟨1, gs ("Alice"), gs ("m1"), gs ("debater")⟩
    [⟨2, gs ("Bob"), gs ("m2"), gs ("debater")⟩, ⟨3, gs ("Carol"), gs ("m3"), gs ("debater")⟩]
    1 2 (gs ("tmm")) (by omega) rfl
  have hrun2 : engineRun engWCancel (setTenthManModel (newEngine (gs ("t")) wagentsW 1 2)
      (gs ("tmm"))) = (stF, ctrF, .error (.wrap (gs ("debate")) .canceled)) := hrun
  rw [hrun2]
  exact ⟨rfl, hturns, hl⟩

theorem c10_rounds_counter_on_failure_witness :
    (newEngine (gs ("t")) wagentsW 1 2).transcript.rounds + 1 = 1 ∧
    (runRound engWNo (newEngine (gs ("t")) wagentsW 1 2) ctrZero 1).1.transcript.rounds = 1 := by
  refine ⟨rfl, ?_⟩
  exact (c10_rounds_counter_on_failure engWNo (newEngine (gs ("t")) wagentsW 1 2) ctrZero 1
    rfl).1 (by decide)

theorem judgeEvalAux_calls_le (llm : Nat → List Message → Except GoErr ChatResponse)
    (cancelled : Nat → Bool) (tr : Transcript) :
    ∀ rem attempt, (judgeEvalAux llm cancelled tr attempt rem).2 ≤ rem := by
  intro rem
  induction rem with
  | zero => intro attempt; simp [judgeEvalAux]
  | succ n ih =>
    intro attempt
    cases hc : cancelled attempt with
    | true => simp [judgeEvalAux, hc]
    | false =>
      cases hllm : llm attempt (judgeMsgs tr attempt) with
      | error e => simp [judgeEvalAux, hc, hllm]
      | ok resp =>
        cases hch : resp.choices with
        | nil => simp [judgeEvalAux, hc, hllm, hch]
        | cons ch rest =>
          cases hp : parseConsensusJSON ch.message.content with
          | some r => simp [judgeEvalAux, hc, hllm, hch, hp]
          | none =>
            have h := ih (attempt + 1)
            simp only [judgeEvalAux, hc, hllm, hch, hp, Bool.false_eq_true, if_false]
            omega

theorem judgeEvalAux_error_src (llm : Nat → List Message → Except GoErr ChatResponse)
    (cancelled : Nat → Bool) (tr : Transcript) (hnc : ∀ k, cancelled k = false) :
    ∀ rem attempt e,
      (judgeEvalAux llm cancelled tr attempt rem).1 = some (.error e) →
      ∃ j e', j < (judgeEvalAux llm cancelled tr attempt rem).2 ∧
        llm (attempt + j) (judgeMsgs tr (attempt + j)) = .error e' ∧
        e = .wrap (gs ("consensus")) e' := by
  intro rem
  induction rem with
  | zero => intro attempt e h; simp [judgeEvalAux] at h
  | succ n ih =>
    intro attempt e h
    cases hllm : llm attempt (judgeMsgs tr attempt) with
    | error e2 =>
      simp [judgeEvalAux, hnc, hllm] at h
      refine ⟨0, e2, ?_, ?_, h.symm⟩
      · simp [judgeEvalAux, hnc, hllm]
      · simpa using hllm
    | ok resp =>
      cases hch : resp.choices with
      | nil => simp [judgeEvalAux, hnc, hllm, hch] at h
      | cons ch rest =>
        cases hp : parseConsensusJSON ch.message.content with
        | some r => simp [judgeEvalAux, hnc, hllm, hch, hp] at h
        | none =>
          simp only [judgeEvalAux, hnc, hllm, hch, hp, Bool.false_eq_true, if_false] at h
          obtain ⟨j, e', hj, hl, he⟩ := ih (attempt + 1) e h
          refine ⟨j + 1, e', ?_, ?_, he⟩
          · simp only [judgeEvalAux, hnc, hllm, hch, hp, Bool.false_eq_true, if_false]
            omega
          · have hidx : attempt + (j + 1) = attempt + 1 + j := by omega
            rw [hidx]
            exact hl

theorem judgeEvalAux_allOk (llm : Nat → List Message → Except GoErr ChatResponse)
    (cancelled : Nat → Bool) (tr : Transcript) (hnc : ∀ k, cancelled k = false)
    (hok : ∀ k, ∃ ch rest, llm k (judgeMsgs tr k) = .ok ⟨ch :: rest⟩) :
    ∀ rem attempt, ∃ r, (judgeEvalAux llm cancelled tr attempt rem).1 = some (.ok r) := by
  intro rem
  induction rem with
  | zero => intro attempt; exact ⟨zeroConsensus, by simp [judgeEvalAux]⟩
  | succ n ih =>
    intro attempt
    obtain ⟨ch, rest, hllm⟩ := hok attempt
    cases hp : parseConsensusJSON ch.message.content with
    | some r => exact ⟨r, by simp [judgeEvalAux, hnc, hllm, hp]⟩
    | none =>
      obtain ⟨r, hr⟩ := ih (attempt + 1)
      refine ⟨r, ?_⟩
      simp only [judgeEvalAux, hnc, hllm, hp, Bool.false_eq_true, if_false]
      exact hr

theorem judgeEvalAux_allUnparse (llm : Nat → List Message → Except GoErr ChatResponse)
    (cancelled : Nat → Bool) (tr : Transcript) (hnc : ∀ k, cancelled k = false)
    (hun : ∀ k, ∃ ch rest, llm k (judgeMsgs tr k) = .ok ⟨ch :: rest⟩ ∧
      parseConsensusJSON ch.message.content = none) :
    ∀ rem attempt,
      judgeEvalAux llm cancelled tr attempt rem = (some (.ok zeroConsensus), rem) := by
  intro rem
  induction rem with
  | zero => intro attempt; simp [judgeEvalAux]
  | succ n ih =>
    intro attempt
    obtain ⟨ch, rest, hllm, hp⟩ := hun attempt
    have h := ih (attempt + 1)
    simp only [judgeEvalAux, hnc, hllm, hp, Bool.false_eq_true, if_false, h]

/-- C5: the judge makes at most `maxJudgeRetries = 3` model calls; if it
returns an error, that error wraps the failure of one of the model calls it
actually made; if every reply succeeds with a nonempty choices list the
result is a successful verdict; and if additionally all replies are
unparseable the result is the zero-value verdict with no error, after
exactly 3 calls. -/
theorem c5_judge_three_attempts (llm : Nat → List Message → Except GoErr ChatResponse)
    (cancelled : Nat → Bool) (tr : Transcript) (hnc : ∀ k, cancelled k = false) :
    (judgeEvaluate llm cancelled tr).2 ≤ maxJudgeRetries ∧
    (∀ e, (judgeEvaluate llm cancelled tr).1 = some (.error e) →
      ∃ j e', j < (judgeEvaluate llm cancelled tr).2 ∧
        llm j (judgeMsgs tr j) = .error e' ∧ e = .wrap (gs ("consensus")) e') ∧
    ((∀ k, ∃ ch rest, llm k (judgeMsgs tr k) = .ok ⟨ch :: rest⟩) →
      ∃ r, (judgeEvaluate llm cancelled tr).1 = some (.ok r)) ∧
    ((∀ k, ∃ ch rest, llm k (judgeMsgs tr k) = .ok ⟨ch :: rest⟩ ∧
        parseConsensusJSON ch.message.content = none) →
      judgeEvaluate llm cancelled tr = (some (.ok zeroConsensus), maxJudgeRetries)) := by
  refine ⟨judgeEvalAux_calls_le llm cancelled tr maxJudgeRetries 0, ?_, ?_, ?_⟩
  · intro e h
    obtain ⟨j, e', hj, hl, he⟩ := judgeEvalAux_error_src llm cancelled tr hnc maxJudgeRetries 0 e h
    refine ⟨j, e', hj, ?_, he⟩
    simpa using hl
  · intro hok
    exact judgeEvalAux_allOk llm cancelled tr hnc hok maxJudgeRetries 0
  · intro hun
    exact judgeEvalAux_allUnparse llm cancelled tr hnc hun maxJudgeRetries 0

theorem c5_judge_three_attempts_witness :
    (∀ k : Nat, (fun _ : Nat => false) k = false) ∧
    judgeEvaluate llmUnpW (fun _ => false) trW = (some (.ok zeroConsensus), maxJudgeRetries) := by
  refine ⟨fun k => rfl, ?_⟩
  have h := c5_judge_three_attempts llmUnpW (fun _ => false) trW (fun k => rfl)
  exact h.2.2.2 (fun k => ⟨⟨⟨gs ("assistant"), gs ("not json")⟩⟩, [], rfl, by decide⟩)

/-- C7 counterexample: a successful reply whose choices list is empty makes
the judge dereference `resp.Choices[0]` and panic (modelled by `none`) after
one call, instead of degrading to the default verdict. -/
theorem c7_empty_choices_panics :
    judgeEvaluate (fun _ _ => .ok (⟨[]⟩ : ChatResponse)) (fun _ => false) trW = (none, 1) := by
  rfl

/-- C7 (amended): in the absence of cancellation, the judge never fails on
successful replies that contain at least one choice — whatever the payload
shape, it returns a verdict (degrading to the zero verdict on unparseable
payloads); an empty choices list instead panics. -/
theorem c7_judge_total_nonempty (llm : Nat → List Message → Except GoErr ChatResponse)
    (cancelled : Nat → Bool) (tr : Transcript) (hnc : ∀ k, cancelled k = false)
    (hok : ∀ k, ∃ ch rest, llm k (judgeMsgs tr k) = .ok ⟨ch :: rest⟩) :
    ∃ r, (judgeEvaluate llm cancelled tr).1 = some (.ok r) :=
  judgeEvalAux_allOk llm cancelled tr hnc hok maxJudgeRetries 0

theorem c7_judge_total_nonempty_witness :
    (∀ k : Nat, (fun _ : Nat => false) k = false) ∧
    (judgeEvaluate llmUnpW (fun _ => false) trW).1.isSome = true := by
  refine ⟨fun k => rfl, ?_⟩
  obtain ⟨r, hr⟩ := c7_judge_total_nonempty llmUnpW (fun _ => false) trW (fun k => rfl)
    (fun k => ⟨⟨⟨gs ("assistant"), gs ("not json")⟩⟩, [], rfl⟩)
  rw [hr]
  rfl

theorem dwrAux_le (doReq : Nat → Except GoErr HTTPResponse) (backoff : Nat → Nat)
    (cancelled : Nat → Bool) :
    ∀ rem attempt waits le,
      (doWithRetryAux doReq backoff cancelled attempt rem waits le).2 ≤ rem := by
  intro rem
  induction rem with
  | zero => intro attempt waits le; simp [doWithRetryAux]
  | succ n ih =>
    intro attempt waits le
    by_cases hc : 0 < attempt ∧ cancelled waits = true
    · simp [doWithRetryAux, hc]
    · cases hdr : doReq attempt with
      | error e => simp [doWithRetryAux, hc, hdr]
      | ok resp =>
        by_cases h200 : resp.statusCode = 200
        · simp [doWithRetryAux, hc, hdr, h200]
        · cases hret : isRetryable resp.statusCode with
          | false => simp [doWithRetryAux, hc, hdr, h200, hret]
          | true =>
            by_cases hra : raActive backoff resp = true ∧
                cancelled (if 0 < attempt then waits + 1 else waits) = true
            · simp [doWithRetryAux, hc, hdr, h200, hret, hra]
            · simp [doWithRetryAux, hc, hdr, h200, hret, hra]
              exact ih _ _ _

theorem dwrAux_200 (doReq : Nat → Except GoErr HTTPResponse) (backoff : Nat → Nat)
    (cancelled : Nat → Bool) (hnc : ∀ t, cancelled t = false) :
    ∀ k attempt rem waits le, k < rem →
      (∀ j, j < k → ∃ rj, doReq (attempt + j) = .ok rj ∧ rj.statusCode ≠ 200 ∧
        isRetryable rj.statusCode = true) →
      ∀ r, doReq (attempt + k) = .ok r → r.statusCode = 200 →
      doWithRetryAux doReq backoff cancelled attempt rem waits le = (some (.ok r), k + 1) := by
  intro k
  induction k with
  | zero =>
    intro attempt rem waits le hlt hprev r hdr h200
    cases rem with
    | zero => omega
    | succ n =>
      rw [Nat.add_zero] at hdr
      simp [doWithRetryAux, hnc, hdr, h200]
  | succ k ih =>
    intro attempt rem waits le hlt hprev r hdr h200
    cases rem with
    | zero => omega
    | succ n =>
      obtain ⟨r0, h0, hne0, hret0⟩ := hprev 0 (by omega)
      rw [Nat.add_zero] at h0
      have hrec : ∀ w2 l2, doWithRetryAux doReq backoff cancelled (attempt + 1) n w2 l2 =
          (some (.ok r), k + 1) := by
        intro w2 l2
        refine ih (attempt + 1) n w2 l2 (by omega) (fun j hj => ?_) r ?_ h200
        · obtain ⟨rj, hj1, hj2, hj3⟩ := hprev (j + 1) (by omega)
          have hidx : attempt + 1 + j = attempt + (j + 1) := by omega
          rw [hidx]
          exact ⟨rj, hj1, hj2, hj3⟩
        · have hidx : attempt + 1 + k = attempt + (k + 1) := by omega
          rw [hidx]
          exact hdr
      simp [doWithRetryAux, hnc, h0, hne0, hret0, hrec]

theorem dwrAux_exhaust (doReq : Nat → Except GoErr HTTPResponse) (backoff : Nat → Nat)
    (cancelled : Nat → Bool) (resps : Nat → HTTPResponse) (hnc : ∀ t, cancelled t = false) :
    ∀ rem attempt waits le, 0 < rem →
      (∀ j, j < rem → doReq (attempt + j) = .ok (resps (attempt + j)) ∧
        (resps (attempt + j)).statusCode ≠ 200 ∧
        isRetryable ((resps (attempt + j)).statusCode) = true) →
      doWithRetryAux doReq backoff cancelled attempt rem waits le =
        (some (.error (.status ((resps (attempt + (rem - 1))).statusCode)
          ((resps (attempt + (rem - 1))).body))), rem) := by
  intro rem
  induction rem with
  | zero => intro attempt waits le h; omega
  | succ n ih =>
    intro attempt waits le hpos hst
    obtain ⟨hdr0, hne, hret⟩ := hst 0 (by omega)
    rw [Nat.add_zero] at hdr0 hne hret
    have hone : doWithRetryAux doReq backoff cancelled attempt (n + 1) waits le =
        ((doWithRetryAux doReq backoff cancelled (attempt + 1) n
            (if raActive backoff (resps attempt) = true
             then (if 0 < attempt then waits + 1 else waits) + 1
             else (if 0 < attempt then waits + 1 else waits))
            (some (.status ((resps attempt).statusCode) ((resps attempt).body)))).1,
          (doWithRetryAux doReq backoff cancelled (attempt + 1) n
            (if raActive backoff (resps attempt) = true
             then (if 0 < attempt then waits + 1 else waits) + 1
             else (if 0 < attempt then waits + 1 else waits))
            (some (.status ((resps attempt).statusCode) ((resps attempt).body)))).2 + 1) := by
      simp [doWithRetryAux, hnc, hdr0, hne, hret]
    rw [hone]
    cases n with
    | zero =>
      simp [doWithRetryAux]
    | succ m =>
      have hrec : ∀ w2 l2, doWithRetryAux doReq backoff cancelled (attempt + 1) (m + 1) w2 l2 =
          (some (.error (.status ((resps (attempt + (m + 1))).statusCode)
            ((resps (attempt + (m + 1))).body))), m + 1) := by
        intro w2 l2
        have h := ih (attempt + 1) w2 l2 (by omega) (fun j hj => by
          have hh := hst (j + 1) (by omega)
          have hidx : attempt + 1 + j = attempt + (j + 1) := by omega
          rw [hidx]
          exact hh)
        have hidx : attempt + 1 + (m + 1 - 1) = attempt + (m + 1) := by omega
        rw [hidx] at h
        exact h
      rw [hrec]
      simp

/-- C6: the client makes at most `maxRetries + 1 = 4` requests per logical
send; a non-retryable status (a non-200 that is neither 429 nor ≥ 500)
fails after exactly 1 request with that status code and body in the error;
a 200 reply at attempt k after retryable failures is returned immediately
after k + 1 requests; and if all 4 attempts return retryable statuses the
call fails with the last attempt's status and body after exactly 4
requests. -/
theorem c6_client_retry_bounds (doReq : Nat → Except GoErr HTTPResponse)
    (backoff : Nat → Nat) (cancelled : Nat → Bool) (hnc : ∀ t, cancelled t = false) :
    (clientDoWithRetry doReq backoff cancelled).2 ≤ maxRetries + 1 ∧
    (∀ r, doReq 0 = .ok r → r.statusCode ≠ 200 → isRetryable r.statusCode = false →
      clientDoWithRetry doReq backoff cancelled =
        (some (.error (.status r.statusCode r.body)), 1)) ∧
    (∀ k r, k ≤ maxRetries → doReq k = .ok r → r.statusCode = 200 →
      (∀ j, j < k → ∃ rj, doReq j = .ok rj ∧ rj.statusCode ≠ 200 ∧
        isRetryable rj.statusCode = true) →
      clientDoWithRetry doReq backoff cancelled = (some (.ok r), k + 1)) ∧
    (∀ resps : Nat → HTTPResponse,
      (∀ j, j ≤ maxRetries → doReq j = .ok (resps j) ∧ (resps j).statusCode ≠ 200 ∧
        isRetryable ((resps j)).statusCode = true) →
      clientDoWithRetry doReq backoff cancelled =
        (some (.error (.status ((resps maxRetries).statusCode) ((resps maxRetries).body))),
          maxRetries + 1)) := by
  refine ⟨dwrAux_le doReq backoff cancelled (maxRetries + 1) 0 0 none, ?_, ?_, ?_⟩
  · intro r hdr hne hret
    show doWithRetryAux doReq backoff cancelled 0 (maxRetries + 1) 0 none = _
    simp [doWithRetryAux, maxRetries, hnc, hdr, hne, hret]
  · intro k r hk hdr h200 hprev
    have h := dwrAux_200 doReq backoff cancelled hnc k 0 (maxRetries + 1) 0 none
      (by simp [maxRetries] at hk ⊢; omega)
      (fun j hj => by simpa using hprev j hj) r (by simpa using hdr) h200
    exact h
  · intro resps hall
    have h := dwrAux_exhaust doReq backoff cancelled resps hnc (maxRetries + 1) 0 0 none
      (by omega) (fun j hj => by
        have := hall j (by simp [maxRetries] at hj ⊢; omega)
        simpa using this)
    simpa using h

theorem c6_client_retry_bounds_witness :
    (∀ t : Nat, (fun _ : Nat => false) t = false) ∧
    (2 : Nat) ≤ maxRetries ∧
    clientDoWithRetry reqSchedW defaultBackoff (fun _ => false) =
      (some (.ok ⟨200, gs ("okbody"), []⟩), 3) := by
  refine ⟨fun t => rfl, by decide, ?_⟩
  have h := (c6_client_retry_bounds reqSchedW defaultBackoff (fun _ => false) (fun t => rfl)).2.2.1
  exact h 2 ⟨200, gs ("okbody"), []⟩ (by decide) rfl rfl
    (fun j hj => ⟨⟨429, gs ("slow down"), []⟩, by simp [reqSchedW, hj], by decide, by decide⟩)

theorem pValue_badHead (fuel : Nat) (c : Char) (t : GoStr) (h : jsonStartCh c = false) :
    pValue fuel (c :: t) = none := by
  cases fuel with
  | zero => rfl
  | succ n =>
    have hn : ¬ c = 'n' := fun hh => by subst hh; simp [jsonStartCh] at h
    have ht : ¬ c = 't' := fun hh => by subst hh; simp [jsonStartCh] at h
    have hf : ¬ c = 'f' := fun hh => by subst hh; simp [jsonStartCh] at h
    have hq : ¬ c = '"' := fun hh => by subst hh; simp [jsonStartCh] at h
    have hm : ¬ c = '-' := fun hh => by subst hh; simp [jsonStartCh] at h
    have hd : isDigitCh c = false := by
      cases hdc : isDigitCh c with
      | false => rfl
      | true => simp [jsonStartCh, hdc] at h
    have hbr : ¬ c = '[' := fun hh => by subst hh; simp [jsonStartCh] at h
    have hbc : ¬ c = '\x7b' := fun hh => by subst hh; simp [jsonStartCh] at h
    simp [pValue, hn, ht, hf, hq, hm, hd, hbr, hbc]

theorem jsonWs_false_of_goWs (c : Char) (h : goWs c = false) : jsonWs c = false := by
  simp [goWs] at h
  simp [jsonWs]
  tauto

theorem jsonUnmarshal_badHead (c : Char) (t : GoStr) (hws : jsonWs c = false)
    (h : jsonStartCh c = false) : jsonUnmarshalConsensus (c :: t) = none := by
  unfold jsonUnmarshalConsensus
  rw [show skipJsonWs (c :: t) = c :: t by simp [skipJsonWs, hws]]
  rw [pValue_badHead _ c t h]

theorem trimRightGo_app (q : GoStr) (c : Char) (hc : goWs c = false) :
    trimRightGo (q ++ [c]) = q ++ [c] := by
  induction q with
  | nil => simp [trimRightGo, hc]
  | cons a q ih =>
    show trimRightGo (a :: (q ++ [c])) = a :: (q ++ [c])
    simp only [trimRightGo]
    rw [ih]
    cases q with
    | nil => rfl
    | cons b q2 => rfl

theorem trimLeftGo_cons (c : Char) (t : GoStr) (hc : goWs c = false) :
    trimLeftGo (c :: t) = c :: t := by
  simp [trimLeftGo, hc]

theorem trimSpaceGo_cons_head (c : Char) (t : GoStr) (hc : goWs c = false) :
    ∃ t2, trimSpaceGo (c :: t) = c :: t2 := by
  unfold trimSpaceGo
  rw [trimLeftGo_cons c t hc]
  cases htr : trimRightGo t with
  | nil => exact ⟨[], by simp [trimRightGo, htr, hc]⟩
  | cons r rs => exact ⟨r :: rs, by simp [trimRightGo, htr]⟩

theorem trimSpaceGo_braced (mid : GoStr) :
    trimSpaceGo ('\x7b' :: (mid ++ ['\x7d'])) = '\x7b' :: (mid ++ ['\x7d']) := by
  unfold trimSpaceGo
  rw [trimLeftGo_cons _ _ (by decide)]
  rw [show ('\x7b' :: (mid ++ ['\x7d'])) = ('\x7b' :: mid) ++ ['\x7d'] by simp]
  exact trimRightGo_app _ _ (by decide)

theorem codeBlockFind_noBT : ∀ s : GoStr, (∀ c ∈ s, c ≠ '`') → codeBlockFind s = none := by
  intro s
  induction s with
  | nil => intro h; rfl
  | cons a t ih =>
    intro h
    have ha : a ≠ '`' := h a (List.mem_cons_self a t)
    have ht : ∀ c ∈ t, c ≠ '`' := fun c hc => h c (List.mem_cons_of_mem a hc)
    rw [codeBlockFind.eq_def]
    split
    · rfl
    · next u heq =>
      exfalso
      injection heq with h1 h2
      exact ha h1
    · next x c2 t2 hconf heq =>
      injection heq with h1 h2
      rw [← h2]
      exact ih ht

theorem cbClose_cons_false (a : Char) (u : GoStr) (ha : a ≠ '`')
    (hu : ∀ b u2, u = b :: u2 → b ≠ '`') : cbClose (a :: u) = false := by
  rw [cbClose.eq_def]
  split
  · next heq =>
    exfalso
    injection heq with h1 h2
    exact hu '`' _ h2 rfl
  · next heq =>
    exfalso
    injection heq with h1 h2
    exact ha h1
  · rfl

theorem cbLazy_clean (p : GoStr) (hbt : ∀ c ∈ p, c ≠ '`') (rest : GoStr) :
    cbLazy (p ++ '\n' :: '`' :: '`' :: '`' :: rest) = some p := by
  induction p with
  | nil => simp [cbLazy, cbClose]
  | cons a t ih =>
    have ha : a ≠ '`' := hbt a (List.mem_cons_self a t)
    have ht : ∀ c ∈ t, c ≠ '`' := fun c hc => hbt c (List.mem_cons_of_mem a hc)
    have hcl : cbClose (a :: (t ++ '\n' :: '`' :: '`' :: '`' :: rest)) = false := by
      refine cbClose_cons_false a _ ha (fun b u2 hb => ?_)
      cases t with
      | nil =>
        injection hb with h1 h2
        rw [← h1]
        decide
      | cons c2 t2 =>
        injection hb with h1 h2
        rw [← h1]
        exact ht c2 (List.mem_cons_self c2 t2)
    simp only [List.cons_append, List.append_eq, cbLazy, hcl]
    rw [ih ht]
    rfl

theorem cbNl_nonNl (a : Char) (u : GoStr) (ha : a ≠ '\n') :
    cbNl (a :: u) = cbLazy (a :: u) := by
  rw [cbNl.eq_def]
  split
  · next heq =>
    exfalso
    injection heq with h1 h2
    exact ha h1
  · rfl

theorem cbWs_chain (p : GoStr) (hbt : ∀ c ∈ p, c ≠ '`')
    (a : Char) (t : GoStr) (hp : p = a :: t) (hra : reWs a = false) :
    cbWs ('\n' :: (p ++ '\n' :: '`' :: '`' :: '`' :: [])) = some p := by
  subst hp
  have hna : a ≠ '\n' := fun hh => by subst hh; simp [reWs] at hra
  have h1 : cbLazy ((a :: t) ++ '\n' :: '`' :: '`' :: '`' :: []) = some (a :: t) :=
    cbLazy_clean _ hbt _
  have h2 : cbNl (a :: (t ++ '\n' :: '`' :: '`' :: '`' :: [])) = some (a :: t) := by
    rw [cbNl_nonNl a _ hna]
    simpa using h1
  have h3 : cbWs (a :: (t ++ '\n' :: '`' :: '`' :: '`' :: [])) = some (a :: t) := by
    simp [cbWs, hra, h2]
  show cbWs ('\n' :: ((a :: t) ++ '\n' :: '`' :: '`' :: '`' :: [])) = some (a :: t)
  rw [cbWs.eq_def]
  simp [h3]
  intro h
  simp [reWs] at h

theorem cbTag_json_form (p : GoStr) (hbt : ∀ c ∈ p, c ≠ '`')
    (a : Char) (t : GoStr) (hp : p = a :: t) (hra : reWs a = false) :
    cbTag ('j' :: 's' :: 'o' :: 'n' :: '\n' :: (p ++ '\n' :: '`' :: '`' :: '`' :: [])) =
      some p := by
  show (cbWs ('\n' :: (p ++ '\n' :: '`' :: '`' :: '`' :: [])) <|>
      cbWs ('j' :: 's' :: 'o' :: 'n' :: '\n' :: (p ++ '\n' :: '`' :: '`' :: '`' :: []))) =
      some p
  rw [cbWs_chain p hbt a t hp hra]
  rfl

theorem cbTag_plain_form (p : GoStr) (hbt : ∀ c ∈ p, c ≠ '`')
    (a : Char) (t : GoStr) (hp : p = a :: t) (hra : reWs a = false) :
    cbTag ('\n' :: (p ++ '\n' :: '`' :: '`' :: '`' :: [])) = some p := by
  show cbWs ('\n' :: (p ++ '\n' :: '`' :: '`' :: '`' :: [])) = some p
  exact cbWs_chain p hbt a t hp hra

theorem codeBlockFind_json (p : GoStr) (hbt : ∀ c ∈ p, c ≠ '`')
    (a : Char) (t : GoStr) (hp : p = a :: t) (hra : reWs a = false) :
    codeBlockFind ('`' :: '`' :: '`' :: 'j' :: 's' :: 'o' :: 'n' :: '\n' ::
      (p ++ '\n' :: '`' :: '`' :: '`' :: [])) = some p := by
  show (cbTag ('j' :: 's' :: 'o' :: 'n' :: '\n' :: (p ++ '\n' :: '`' :: '`' :: '`' :: [])) <|>
      codeBlockFind ('`' :: '`' :: 'j' :: 's' :: 'o' :: 'n' :: '\n' ::
        (p ++ '\n' :: '`' :: '`' :: '`' :: []))) = some p
  rw [cbTag_json_form p hbt a t hp hra]
  rfl

theorem codeBlockFind_plain (p : GoStr) (hbt : ∀ c ∈ p, c ≠ '`')
    (a : Char) (t : GoStr) (hp : p = a :: t) (hra : reWs a = false) :
    codeBlockFind ('`' :: '`' :: '`' :: '\n' :: (p ++ '\n' :: '`' :: '`' :: '`' :: [])) =
      some p := by
  show (cbTag ('\n' :: (p ++ '\n' :: '`' :: '`' :: '`' :: [])) <|>
      codeBlockFind ('`' :: '`' :: '\n' :: (p ++ '\n' :: '`' :: '`' :: '`' :: []))) = some p
  rw [cbTag_plain_form p hbt a t hp hra]
  rfl

theorem firstIdxOf_app_left (c : Char) (pre : GoStr) (hpre : ∀ x ∈ pre, x ≠ c)
    (t : GoStr) (ht : ∃ u, t = c :: u) :
    firstIdxOf c (pre ++ t) = some pre.length := by
  induction pre with
  | nil =>
    obtain ⟨u, rfl⟩ := ht
    simp [firstIdxOf]
  | cons a q ih =>
    have ha : a ≠ c := hpre a (List.mem_cons_self a q)
    have hq : ∀ x ∈ q, x ≠ c := fun x hx => hpre x (List.mem_cons_of_mem a hx)
    show firstIdxOf c (a :: (q ++ t)) = some (a :: q).length
    simp only [firstIdxOf, ha, if_false]
    rw [ih hq]
    simp

theorem parseBraceScan_prose (v : ConsensusResult) (p pre post mid : GoStr)
    (hmid : p = '\x7b' :: (mid ++ ['\x7d']))
    (hp : jsonUnmarshalConsensus (trimSpaceGo p) = some v)
    (hpre : ∀ x ∈ pre, x ≠ '\x7b') (hpost : ∀ x ∈ post, x ≠ '\x7d') :
    parseBraceScan ((pre ++ p) ++ post) = some v := by
  have hplen : p.length = mid.length + 2 := by rw [hmid]; simp
  have hpv : jsonUnmarshalConsensus p = some v := by
    rw [hmid] at hp ⊢
    rw [trimSpaceGo_braced] at hp
    exact hp
  have hfi : firstIdxOf '\x7b' ((pre ++ p) ++ post) = some pre.length := by
    rw [List.append_assoc]
    exact firstIdxOf_app_left _ pre hpre _ ⟨(mid ++ ['\x7d']) ++ post, by rw [hmid]; simp⟩
  have hrev : ((pre ++ p) ++ post).reverse =
      post.reverse ++ ('\x7d' :: (mid.reverse ++ ('\x7b' :: pre.reverse))) := by
    rw [hmid]
    simp
  have hfir : firstIdxOf '\x7d' (((pre ++ p) ++ post).reverse) = some post.length := by
    rw [hrev]
    have h := firstIdxOf_app_left '\x7d' post.reverse
      (fun x hx => hpost x (List.mem_reverse.mp hx))
      ('\x7d' :: (mid.reverse ++ ('\x7b' :: pre.reverse))) ⟨_, rfl⟩
    rw [List.length_reverse] at h
    exact h
  have hla : lastIdxOf '\x7d' ((pre ++ p) ++ post) = some (pre.length + (p.length - 1)) := by
    unfold lastIdxOf
    rw [hfir]
    simp [List.length_append]
    omega
  simp only [parseBraceScan, hfi, hla]
  rw [if_pos (by omega)]
  have hslice : sliceGo ((pre ++ p) ++ post) pre.length (pre.length + (p.length - 1) + 1) = p := by
    unfold sliceGo
    rw [List.append_assoc, List.drop_left]
    have h1 : pre.length + (p.length - 1) + 1 - pre.length = p.length := by omega
    rw [h1]
    exact List.take_left p post
  rw [hslice]
  exact hpv

theorem parseConsensus_bare (v : ConsensusResult) (p : GoStr)
    (hp : jsonUnmarshalConsensus (trimSpaceGo p) = some v) :
    parseConsensusJSON p = some v := by
  simp only [parseConsensusJSON, hp]

theorem parseConsensus_fenced_json (v : ConsensusResult) (p mid : GoStr)
    (hp : jsonUnmarshalConsensus (trimSpaceGo p) = some v)
    (hmid : p = '\x7b' :: (mid ++ ['\x7d'])) (hbt : ∀ c ∈ p, c ≠ '`') :
    parseConsensusJSON (gs ("```json\n") ++ p ++ gs ("\n```")) = some v := by
  obtain ⟨t2, ht2⟩ : ∃ t2, trimSpaceGo ((gs ("```json\n") ++ p) ++ gs ("\n```")) = '`' :: t2 := by
    show ∃ t2, trimSpaceGo ('`' :: ('`' :: '`' :: 'j' :: 's' :: 'o' :: 'n' :: '\n' ::
      (p ++ gs ("\n```")))) = '`' :: t2
    exact trimSpaceGo_cons_head '`' _ (by decide)
  have hr1 : jsonUnmarshalConsensus (trimSpaceGo ((gs ("```json\n") ++ p) ++ gs ("\n```"))) =
      none := by
    rw [ht2]
    exact jsonUnmarshal_badHead '`' t2 (by decide) (by decide)
  have hr2 : codeBlockFind ((gs ("```json\n") ++ p) ++ gs ("\n```")) = some p := by
    show codeBlockFind ('`' :: '`' :: '`' :: 'j' :: 's' :: 'o' :: 'n' :: '\n' ::
      (p ++ '\n' :: '`' :: '`' :: '`' :: [])) = some p
    exact codeBlockFind_json p hbt '\x7b' (mid ++ ['\x7d']) hmid (by decide)
  simp only [parseConsensusJSON, hr1, hr2, hp]

theorem parseConsensus_fenced_plain (v : ConsensusResult) (p mid : GoStr)
    (hp : jsonUnmarshalConsensus (trimSpaceGo p) = some v)
    (hmid : p = '\x7b' :: (mid ++ ['\x7d'])) (hbt : ∀ c ∈ p, c ≠ '`') :
    parseConsensusJSON (gs ("```\n") ++ p ++ gs ("\n```")) = some v := by
  obtain ⟨t2, ht2⟩ : ∃ t2, trimSpaceGo ((gs ("```\n") ++ p) ++ gs ("\n```")) = '`' :: t2 := by
    show ∃ t2, trimSpaceGo ('`' :: ('`' :: '`' :: '\n' :: (p ++ gs ("\n```")))) = '`' :: t2
    exact trimSpaceGo_cons_head '`' _ (by decide)
  have hr1 : jsonUnmarshalConsensus (trimSpaceGo ((gs ("```\n") ++ p) ++ gs ("\n```"))) =
      none := by
    rw [ht2]
    exact jsonUnmarshal_badHead '`' t2 (by decide) (by decide)
  have hr2 : codeBlockFind ((gs ("```\n") ++ p) ++ gs ("\n```")) = some p := by
    show codeBlockFind ('`' :: '`' :: '`' :: '\n' ::
      (p ++ '\n' :: '`' :: '`' :: '`' :: [])) = some p
    exact codeBlockFind_plain p hbt '\x7b' (mid ++ ['\x7d']) hmid (by decide)
  simp only [parseConsensusJSON, hr1, hr2, hp]

theorem parseConsensus_prose_clean (v : ConsensusResult) (p pre post mid : GoStr)
    (c0 : Char) (pt : GoStr)
    (hp : jsonUnmarshalConsensus (trimSpaceGo p) = some v)
    (hmid : p = '\x7b' :: (mid ++ ['\x7d'])) (hbt : ∀ c ∈ p, c ≠ '`')
    (hpre0 : pre = c0 :: pt) (hc0a : jsonStartCh c0 = false) (hc0b : goWs c0 = false)
    (hpreCl : ∀ c ∈ pre, c ≠ '\x7b' ∧ c ≠ '`')
    (hpostCl : ∀ c ∈ post, c ≠ '\x7d' ∧ c ≠ '`') :
    parseConsensusJSON ((pre ++ p) ++ post) = some v := by
  obtain ⟨t2, ht2⟩ : ∃ t2, trimSpaceGo ((pre ++ p) ++ post) = c0 :: t2 := by
    rw [hpre0]
    show ∃ t2, trimSpaceGo (c0 :: ((pt ++ p) ++ post)) = c0 :: t2
    exact trimSpaceGo_cons_head c0 _ hc0b
  have hr1 : jsonUnmarshalConsensus (trimSpaceGo ((pre ++ p) ++ post)) = none := by
    rw [ht2]
    exact jsonUnmarshal_badHead c0 t2 (jsonWs_false_of_goWs c0 hc0b) hc0a
  have hr2 : codeBlockFind ((pre ++ p) ++ post) = none := by
    refine codeBlockFind_noBT _ (fun c hc => ?_)
    rcases List.mem_append.mp hc with h | h
    · rcases List.mem_append.mp h with h2 | h2
      · exact (hpreCl c h2).2
      · exact hbt c h2
    · exact (hpostCl c h).2
  have hr3 := parseBraceScan_prose v p pre post mid hmid hp
    (fun x hx => (hpreCl x hx).1) (fun x hx => (hpostCl x hx).1)
  simp only [parseConsensusJSON, hr1, hr2, hr3]

/-- C4 counterexample: the claim's prose-embedded form does not parse
identically in general.  The bare payload parses, but the same payload
behind leading prose that itself contains an opening brace makes all three
extraction rules fail (the brace scan starts at the prose's brace), so the
reply is rejected. -/
theorem c4_prose_with_brace_fails :
    parseConsensusJSON payloadW = some vW ∧
    parseConsensusJSON (gs ("data: \x7b oops\n") ++ payloadW) = none := by
  constructor
  · decide
  · decide

/-- C4 (amended): the four reply forms — bare payload, fenced with a `json`
tag, fenced without a tag, and embedded in prose — parse to the same verdict
provided the payload is a braced object with no backtick and the
surrounding prose contains no brace or backtick and starts with a character
that cannot begin a JSON value; and extraction tries the direct parse, then
the fenced-block capture, then the brace scan, in that order, the first
success winning. -/
theorem c4_four_forms_amended (v : ConsensusResult) (p pre post mid : GoStr)
    (c0 : Char) (pt : GoStr)
    (hp : jsonUnmarshalConsensus (trimSpaceGo p) = some v)
    (hmid : p = '\x7b' :: (mid ++ ['\x7d'])) (hbt : ∀ c ∈ p, c ≠ '`')
    (hpre0 : pre = c0 :: pt) (hc0a : jsonStartCh c0 = false) (hc0b : goWs c0 = false)
    (hpreCl : ∀ c ∈ pre, c ≠ '\x7b' ∧ c ≠ '`')
    (hpostCl : ∀ c ∈ post, c ≠ '\x7d' ∧ c ≠ '`') :
    parseConsensusJSON p = some v ∧
    parseConsensusJSON (gs ("```json\n") ++ p ++ gs ("\n```")) = some v ∧
    parseConsensusJSON (gs ("```\n") ++ p ++ gs ("\n```")) = some v ∧
    parseConsensusJSON ((pre ++ p) ++ post) = some v ∧
    (∀ raw r, jsonUnmarshalConsensus (trimSpaceGo raw) = some r →
      parseConsensusJSON raw = some r) ∧
    (∀ raw cap r, jsonUnmarshalConsensus (trimSpaceGo raw) = none →
      codeBlockFind raw = some cap → jsonUnmarshalConsensus (trimSpaceGo cap) = some r →
      parseConsensusJSON raw = some r) ∧
    (∀ raw, jsonUnmarshalConsensus (trimSpaceGo raw) = none → codeBlockFind raw = none →
      parseConsensusJSON raw = parseBraceScan raw) := by
  refine ⟨parseConsensus_bare v p hp,
    parseConsensus_fenced_json v p mid hp hmid hbt,
    parseConsensus_fenced_plain v p mid hp hmid hbt,
    parseConsensus_prose_clean v p pre post mid c0 pt hp hmid hbt hpre0 hc0a hc0b
      hpreCl hpostCl, ?_, ?_, ?_⟩
  · intro raw r h
    simp only [parseConsensusJSON, h]
  · intro raw cap r h1 h2 h3
    simp only [parseConsensusJSON, h1, h2, h3]
  · intro raw h1 h2
    simp only [parseConsensusJSON, h1, h2]

theorem c4_four_forms_amended_witness :
    jsonUnmarshalConsensus (trimSpaceGo payloadW) = some vW ∧
    jsonStartCh 'H' = false ∧
    parseConsensusJSON ((gs ("Here is my verdict: ") ++ payloadW) ++ gs (" . Thanks!")) =
      some vW := by
  refine ⟨by decide, by decide, ?_⟩
  have h := c4_four_forms_amended vW payloadW (gs ("Here is my verdict: "))
    (gs (" . Thanks!")) payloadMidW 'H' (gs ("ere is my verdict: "))
    (by decide) rfl (by decide) rfl (by decide) (by decide) (by decide) (by decide)
  exact h.2.2.2.1
